import Mathlib

/-!
# txhelper: the transaction execution helper (exec.go)

A shallow embedding of `exec.go`.  The package runs a caller-supplied unit of
work inside a database transaction, commits on success, rolls back on failure
and retries errors that a classifier accepts.

Modelling choices
* Go `error` values are `Option Err`: `none` is `nil`.
* The collaborators (the connection, the unit of work, `Commit`, `Rollback`)
  are deterministic functions of the history of the call: each receives the
  trace of every call made so far together with its result.  A closure that
  counts its invocations, as in `exec_test.go`, is such a function.
* Every call to a collaborator appends one `Event` to the trace, so the order
  and number of calls can be read off the trace of a `Run`.
* The unit of work either returns or panics.  `BeginTx`, `Commit`, `Rollback`
  and the classifier return.  The payload of a panic is the non-nil value that
  `recover()` hands to the deferred function.
* The `for` loop of `Execute` is iterated by `retryLoop` under a fuel bound;
  `none` means the fuel ran out before the loop left.
* `uint` is a natural number, the increment of the retry counter is taken
  modulo `uintModulus`.
-/

namespace TxHelper

/-- A non-nil Go `error` value. -/
abbrev Err := Nat

/-- The payload of a panic. -/
abbrev Payload := Nat

/-- The identity of a `*sql.Tx` handle. -/
abbrev Tx := Nat

/-- The identity of a `context.Context`. -/
abbrev Context := Nat

/-- `sql.IsolationLevel` is `int`. -/
abbrev sql.IsolationLevel := Int

/-- `time.Duration` is a signed count of nanoseconds. -/
abbrev time.Duration := Int

/-- `sql.LevelDefault`, the first constant of the enumeration. -/
def sql.LevelDefault : sql.IsolationLevel := 0

/-- `sql.LevelReadCommitted`. -/
def sql.LevelReadCommitted : sql.IsolationLevel := 2

/-- The number of values of Go's `uint` (64-bit platforms). -/
def uintModulus : Nat := 2 ^ 64

/-- `sql.TxOptions`. -/
structure sql.TxOptions where
  Isolation : sql.IsolationLevel
  ReadOnly : Bool
  deriving DecidableEq, Repr

/-- `CheckRetryableFunc`: a `func(error) bool`, or `nil`. -/
abbrev CheckRetryableFunc := Option (Err → Bool)

/-- The `options` struct. -/
structure options where
  isolation : sql.IsolationLevel
  retryTimes : Nat
  maxRetryTimes : Nat
  retryDelay : time.Duration
  checkRetryable : CheckRetryableFunc

/-- The package-level variables. -/
structure Globals where
  defaultCheckRetryable : CheckRetryableFunc

/-- The package state before any call: the variable holds `nil`. -/
def Globals.start : Globals :=
  { defaultCheckRetryable := none }

/-- What one invocation of the unit of work does: it returns an error value
or it panics. -/
inductive ExecResult where
  | ret (err : Option Err)
  | panic (p : Payload)
  deriving DecidableEq, Repr

/-- One call made by `Execute` to a collaborator, with what the call gave. -/
inductive Event where
  | beginTx (ctx : Context) (opts : sql.TxOptions) (tx : Tx) (err : Option Err)
  | exec (tx : Tx) (out : ExecResult)
  | commit (tx : Tx) (err : Option Err)
  | check (err : Err) (retryable : Bool)
  | sleep (d : time.Duration)
  | rollback (tx : Tx) (err : Option Err)
  deriving DecidableEq, Repr

/-- `TxBeginner`: the interface with the single method `BeginTx`. -/
structure TxBeginner where
  BeginTx : Context → sql.TxOptions → Tx × Option Err

/-- `TxExecFunc`: the unit of work.  It sees the history of the call. -/
abbrev TxExecFunc := List Event → Tx → ExecResult

/-- The methods of `*sql.Tx` that `Execute` calls. -/
structure Driver where
  Commit : List Event → Tx → Option Err
  Rollback : List Event → Tx → Option Err

/-- How a call of `Execute` ends: it returns an error value or it panics. -/
inductive Outcome where
  | returned (err : Option Err)
  | panicked (p : Payload)
  deriving DecidableEq, Repr

/-- A finished call of `Execute`: how it ended, the calls it made in order,
and the configuration it held when it ended. -/
structure Run where
  result : Outcome
  trace : List Event
  cfg : options

/-- The state after one pass of the loop body: go round again, or leave. -/
inductive Step where
  | again (cfg : options) (tr : List Event)
  | done (r : Run)

/-- `defaultOptions` (exec.go 30-38). -/
def defaultOptions (g : Globals) : options :=
  { isolation := sql.LevelDefault
    retryTimes := 0
    maxRetryTimes := 3
    retryDelay := 0
    checkRetryable := g.defaultCheckRetryable }

/-- `MaxRetryTimes` (exec.go 40-44). -/
def MaxRetryTimes (times : Nat) : options → options :=
  fun r => { r with maxRetryTimes := times }

/-- `RetryDelay` (exec.go 46-50). -/
def RetryDelay (delay : time.Duration) : options → options :=
  fun r => { r with retryDelay := delay }

/-- `IsolationLevel` (exec.go 52-56). -/
def IsolationLevel (level : sql.IsolationLevel) : options → options :=
  fun r => { r with isolation := level }

/-- `CheckRetryable` (exec.go 58-62). -/
def CheckRetryable (fn : CheckRetryableFunc) : options → options :=
  fun r => { r with checkRetryable := fn }

/-- `DefaultCheckRetryable` (exec.go 64-66). -/
def DefaultCheckRetryable (g : Globals) : CheckRetryableFunc :=
  g.defaultCheckRetryable

/-- `SetDefaultCheckRetryable` (exec.go 68-70). -/
def SetDefaultCheckRetryable (fn : CheckRetryableFunc) (g : Globals) : Globals :=
  { g with defaultCheckRetryable := fn }

/-- The configuration of a call (exec.go 74-77): the defaults, then every
option in the order given. -/
def buildConfig (g : Globals) (opts : List (options → options)) : options :=
  opts.foldl (fun cfg opt => opt cfg) (defaultOptions g)

/-- An option a caller can pass: `options` is unexported, so the only values
of `func(*options)` come from the four exported setters, and `MaxRetryTimes`
takes a `uint`. -/
def IsSetter (o : options → options) : Prop :=
  (∃ n, n < uintModulus ∧ o = MaxRetryTimes n) ∨ (∃ d, o = RetryDelay d) ∨
    (∃ l, o = IsolationLevel l) ∨ (∃ f, o = CheckRetryable f)

/-- The deferred function (exec.go 87-92) when `recover()` gives `p`: roll
back, then panic again with `p`. -/
def recoverPanic (drv : Driver) (tx : Tx) (cfg : options) (tr : List Event)
    (p : Payload) : Run :=
  { result := .panicked p
    trace := tr ++ [.rollback tx (drv.Rollback tr tx)]
    cfg := cfg }

/-- Lines 96-98: `Commit` is called when the unit of work returned `nil`, and
its result becomes `err`. -/
def commitIfNil (drv : Driver) (tx : Tx) (err : Option Err) (tr : List Event) :
    Option Err × List Event :=
  match err with
  | none => (drv.Commit tr tx, tr ++ [.commit tx (drv.Commit tr tx)])
  | some e => (some e, tr)

/-- The condition of line 100, evaluated left to right; the classifier is
called only when the three tests before it hold. -/
def retryGuard (cfg : options) (err : Option Err) (tr : List Event) :
    Bool × List Event :=
  match err, cfg.checkRetryable with
  | some e, some f =>
    if cfg.retryTimes < cfg.maxRetryTimes then (f e, tr ++ [.check e (f e)])
    else (false, tr)
  | _, _ => (false, tr)

/-- Lines 101-103: sleep when the delay is positive. -/
def sleepIfDelay (cfg : options) (tr : List Event) : List Event :=
  if cfg.retryDelay > 0 then tr ++ [.sleep cfg.retryDelay] else tr

/-- Lines 109-112: roll back when `err` is not `nil`; the result of
`Rollback` is dropped. -/
def rollbackIfErr (drv : Driver) (tx : Tx) (err : Option Err) (tr : List Event) :
    List Event :=
  match err with
  | none => tr
  | some _ => tr ++ [.rollback tx (drv.Rollback tr tx)]

/-- Lines 100-114: with `err` of this attempt, go round again or leave. -/
def afterAttempt (drv : Driver) (tx : Tx) (cfg : options) (err : Option Err)
    (tr : List Event) : Step :=
  if (retryGuard cfg err tr).1 then
    .again { cfg with retryTimes := (cfg.retryTimes + 1) % uintModulus }
      (sleepIfDelay cfg (retryGuard cfg err tr).2)
  else
    .done
      { result := .returned err
        trace := rollbackIfErr drv tx err (retryGuard cfg err tr).2
        cfg := cfg }

/-- One pass of the body of the `for` loop (exec.go 95-114); when the unit
of work panics, the deferred function runs. -/
def loopBody (drv : Driver) (exec : TxExecFunc) (tx : Tx) (cfg : options)
    (tr : List Event) : Step :=
  match exec tr tx with
  | .panic p => .done (recoverPanic drv tx cfg (tr ++ [.exec tx (.panic p)]) p)
  | .ret err =>
    afterAttempt drv tx cfg
      (commitIfNil drv tx err (tr ++ [.exec tx (.ret err)])).1
      (commitIfNil drv tx err (tr ++ [.exec tx (.ret err)])).2

/-- The `for` loop (exec.go 94-115), at most `fuel` passes. -/
def retryLoop (drv : Driver) (exec : TxExecFunc) (tx : Tx) :
    Nat → options → List Event → Option Run
  | 0, _, _ => none
  | fuel + 1, cfg, tr =>
    match loopBody drv exec tx cfg tr with
    | .again cfg1 tr1 => retryLoop drv exec tx fuel cfg1 tr1
    | .done r => some r

/-- The transaction options of line 79-81. -/
def txOptionsOf (cfg : options) : sql.TxOptions :=
  { Isolation := cfg.isolation, ReadOnly := false }

/-- The trace after the call of `BeginTx`. -/
def beginTrace (ctx : Context) (db : TxBeginner) (cfg : options) : List Event :=
  [.beginTx ctx (txOptionsOf cfg) (db.BeginTx ctx (txOptionsOf cfg)).1
    (db.BeginTx ctx (txOptionsOf cfg)).2]

/-- Lines 79-116 of `Execute`, from the configuration `cfg`. -/
def executeWith (fuel : Nat) (drv : Driver) (ctx : Context) (db : TxBeginner)
    (exec : TxExecFunc) (cfg : options) : Option Run :=
  match (db.BeginTx ctx (txOptionsOf cfg)).2 with
  | some e =>
    some { result := .returned (some e), trace := beginTrace ctx db cfg, cfg := cfg }
  | none =>
    retryLoop drv exec (db.BeginTx ctx (txOptionsOf cfg)).1 fuel cfg
      (beginTrace ctx db cfg)

/-- `Execute` (exec.go 73-116). -/
def Execute (fuel : Nat) (g : Globals) (drv : Driver) (ctx : Context)
    (db : TxBeginner) (exec : TxExecFunc) (opts : List (options → options)) :
    Option Run :=
  executeWith fuel drv ctx db exec (buildConfig g opts)

/-! ## Reading a trace -/

/-- The results of the invocations of the unit of work, in order. -/
def execResults : List Event → List ExecResult
  | [] => []
  | .exec _ out :: tr => out :: execResults tr
  | _ :: tr => execResults tr

/-- The handles passed to the unit of work, in order. -/
def execTxs : List Event → List Tx
  | [] => []
  | .exec tx _ :: tr => tx :: execTxs tr
  | _ :: tr => execTxs tr

/-- The number of invocations of the unit of work. -/
def execCount (tr : List Event) : Nat := (execResults tr).length

/-- The results of the calls of `Commit`, in order. -/
def commitResults : List Event → List (Option Err)
  | [] => []
  | .commit _ err :: tr => err :: commitResults tr
  | _ :: tr => commitResults tr

/-- The number of calls of `Commit`. -/
def commitCount (tr : List Event) : Nat := (commitResults tr).length

/-- The results of the calls of `Rollback`, in order. -/
def rollbackResults : List Event → List (Option Err)
  | [] => []
  | .rollback _ err :: tr => err :: rollbackResults tr
  | _ :: tr => rollbackResults tr

/-- The number of calls of `Rollback`. -/
def rollbackCount (tr : List Event) : Nat := (rollbackResults tr).length

/-- The errors given to the classifier, in order. -/
def checkArgs : List Event → List Err
  | [] => []
  | .check e _ :: tr => e :: checkArgs tr
  | _ :: tr => checkArgs tr

/-- The number of calls of the classifier. -/
def checkCount (tr : List Event) : Nat := (checkArgs tr).length

/-- The number of calls of `BeginTx`. -/
def beginCount : List Event → Nat
  | [] => 0
  | .beginTx _ _ _ _ :: tr => beginCount tr + 1
  | _ :: tr => beginCount tr

/-- The value of the variable `err` of `Execute` after the calls of the trace,
starting from `cur`: `BeginTx`, the unit of work and `Commit` assign it. -/
def errAfter (cur : Option Err) : List Event → Option Err
  | [] => cur
  | .beginTx _ _ _ err :: tr => errAfter err tr
  | .exec _ (.ret err) :: tr => errAfter err tr
  | .commit _ err :: tr => errAfter err tr
  | _ :: tr => errAfter cur tr

/-- The calls of `Sleep`, with the duration of each, in order. -/
def sleepDurations : List Event → List time.Duration
  | [] => []
  | .sleep d :: tr => d :: sleepDurations tr
  | _ :: tr => sleepDurations tr

/-- The handle that a call acts on: the unit of work, `Commit` and `Rollback`
each receive one. -/
def eventTx : Event → Option Tx
  | .exec tx _ => some tx
  | .commit tx _ => some tx
  | .rollback tx _ => some tx
  | _ => none

/-- The error of each attempt, in order: the error that the unit of work
returned, or the result of `Commit` when the unit of work returned `nil`. -/
def attemptErrs : List Event → List (Option Err)
  | [] => []
  | .exec _ (.ret (some e)) :: tr => some e :: attemptErrs tr
  | .commit _ err :: tr => err :: attemptErrs tr
  | _ :: tr => attemptErrs tr

/-- The states in which the body of the `for` loop is entered, pass by pass:
the configuration and the trace at the head of the loop. -/
def loopStates (drv : Driver) (exec : TxExecFunc) (tx : Tx) :
    Nat → options → List Event → List (options × List Event)
  | 0, _, _ => []
  | fuel + 1, cfg, tr =>
    (cfg, tr) ::
      match loopBody drv exec tx cfg tr with
      | .again cfg1 tr1 => loopStates drv exec tx fuel cfg1 tr1
      | .done _ => []

/-- A call of `Execute` as a step of the package state.  `Execute` reads the
package variable once, in `defaultOptions`, and assigns it nowhere: the state
after the call is the state before it. -/
def ExecuteStep (fuel : Nat) (g : Globals) (drv : Driver) (ctx : Context)
    (db : TxBeginner) (exec : TxExecFunc) (opts : List (options → options)) :
    Option Run × Globals :=
  (Execute fuel g drv ctx db exec opts, g)

/-! ## Option lists as the caller writes them -/

/-- An option of a call: one of the four exported setters with its
argument. -/
inductive OptionCall where
  | maxRetryTimes (times : Nat)
  | retryDelay (delay : time.Duration)
  | isolationLevel (level : sql.IsolationLevel)
  | checkRetryable (fn : CheckRetryableFunc)

/-- The `func(*options)` that the setter returns. -/
def OptionCall.toFunc : OptionCall → options → options
  | .maxRetryTimes times => MaxRetryTimes times
  | .retryDelay delay => RetryDelay delay
  | .isolationLevel level => IsolationLevel level
  | .checkRetryable fn => CheckRetryable fn

/-- The argument of `MaxRetryTimes` is a `uint`. -/
def OptionCall.WellTyped : OptionCall → Prop
  | .maxRetryTimes times => times < uintModulus
  | _ => True

/-- The argument of the last `MaxRetryTimes` of the list, if there is one. -/
def lastMaxRetryTimes : List OptionCall → Option Nat
  | [] => none
  | .maxRetryTimes times :: os => some ((lastMaxRetryTimes os).getD times)
  | _ :: os => lastMaxRetryTimes os

/-- The argument of the last `RetryDelay` of the list, if there is one. -/
def lastRetryDelay : List OptionCall → Option time.Duration
  | [] => none
  | .retryDelay delay :: os => some ((lastRetryDelay os).getD delay)
  | _ :: os => lastRetryDelay os

/-- The argument of the last `IsolationLevel` of the list, if there is one. -/
def lastIsolationLevel : List OptionCall → Option sql.IsolationLevel
  | [] => none
  | .isolationLevel level :: os => some ((lastIsolationLevel os).getD level)
  | _ :: os => lastIsolationLevel os

/-- The argument of the last `CheckRetryable` of the list, if there is one. -/
def lastCheckRetryable : List OptionCall → Option CheckRetryableFunc
  | [] => none
  | .checkRetryable fn :: os => some ((lastCheckRetryable os).getD fn)
  | _ :: os => lastCheckRetryable os

/-- The guard of the spec for looping again, for the error `err` of an attempt
made with the retry counter at `count`: an error is present, a classifier is
set, it accepts the error, and the counter is below the maximum. -/
def loopsAgain (cfg : options) (count : Nat) (err : Option Err) : Bool :=
  match err, cfg.checkRetryable with
  | some e, some f => f e && decide (count < cfg.maxRetryTimes)
  | _, _ => false

/-! ## The fixtures of exec_test.go -/

/-- `errRetryable`, the "deadlock error". -/
def errRetryable : Err := 1

/-- `errSQL`, the "sql error". -/
def errSQL : Err := 2

/-- `isRetryableErr`: `errors.Is(err, errRetryable)`. -/
def isRetryableErr : Err → Bool :=
  fun err => err == errRetryable

/-- The package state of the tests: `init` has set the default classifier. -/
def testGlobals : Globals :=
  SetDefaultCheckRetryable (some isRetryableErr) Globals.start

/-- A connection whose `BeginTx` gives the handle 7. -/
def mockDB : TxBeginner :=
  { BeginTx := fun _ _ => (7, none) }

/-- A connection whose `BeginTx` fails with `errSQL`. -/
def mockDBBeginFails : TxBeginner :=
  { BeginTx := fun _ _ => (0, some errSQL) }

/-- A transaction whose `Commit` and `Rollback` return `nil`. -/
def mockTx : Driver :=
  { Commit := fun _ _ => none, Rollback := fun _ _ => none }

/-- A transaction whose `Commit` fails with `errRetryable` and whose
`Rollback` fails with `errSQL`. -/
def mockTxCommitFails : Driver :=
  { Commit := fun _ _ => some errRetryable, Rollback := fun _ _ => some errSQL }

/-- A unit of work that fails with `errRetryable` on its first `k`
invocations and returns `nil` from then on (the closure over `count` of the
test "Success with retry 3 times"). -/
def execFailFirst (k : Nat) : TxExecFunc :=
  fun tr _ => if execCount tr < k then .ret (some errRetryable) else .ret none

/-- A unit of work that always fails with `errRetryable`. -/
def execAlwaysRetryable : TxExecFunc :=
  fun _ _ => .ret (some errRetryable)

/-- A unit of work that always fails with `errSQL`. -/
def execAlwaysSQL : TxExecFunc :=
  fun _ _ => .ret (some errSQL)

/-- A unit of work that always returns `nil`. -/
def execNil : TxExecFunc :=
  fun _ _ => .ret none

/-- A unit of work that fails with `errRetryable` once and panics with the
payload 9 on its second invocation. -/
def execFailThenPanic : TxExecFunc :=
  fun tr _ => if execCount tr < 1 then .ret (some errRetryable) else .panic 9

/-- The unit of work of the test "Failure: panic on execution func": every
invocation panics, the payload is `errSQL`. -/
def execPanic : TxExecFunc :=
  fun _ _ => .panic errSQL

/-! ## Reading a trace: lemmas -/

@[simp]
theorem execResults_append (a b : List Event) :
    execResults (a ++ b) = execResults a ++ execResults b := by
  induction a with
  | nil => rfl
  | cons ev a ih => cases ev <;> simp [execResults, ih]

@[simp]
theorem execTxs_append (a b : List Event) :
    execTxs (a ++ b) = execTxs a ++ execTxs b := by
  induction a with
  | nil => rfl
  | cons ev a ih => cases ev <;> simp [execTxs, ih]

@[simp]
theorem commitResults_append (a b : List Event) :
    commitResults (a ++ b) = commitResults a ++ commitResults b := by
  induction a with
  | nil => rfl
  | cons ev a ih => cases ev <;> simp [commitResults, ih]

@[simp]
theorem rollbackResults_append (a b : List Event) :
    rollbackResults (a ++ b) = rollbackResults a ++ rollbackResults b := by
  induction a with
  | nil => rfl
  | cons ev a ih => cases ev <;> simp [rollbackResults, ih]

@[simp]
theorem checkArgs_append (a b : List Event) :
    checkArgs (a ++ b) = checkArgs a ++ checkArgs b := by
  induction a with
  | nil => rfl
  | cons ev a ih => cases ev <;> simp [checkArgs, ih]

@[simp]
theorem beginCount_append (a b : List Event) :
    beginCount (a ++ b) = beginCount a + beginCount b := by
  induction a with
  | nil => simp [beginCount]
  | cons ev a ih =>
    cases ev <;> simp [beginCount, ih]
    omega

/-! ## The loop -/

theorem retryLoop_succ (drv : Driver) (exec : TxExecFunc) (tx : Tx) (fuel : Nat)
    (cfg : options) (tr : List Event) :
    retryLoop drv exec tx (fuel + 1) cfg tr =
      match loopBody drv exec tx cfg tr with
      | .again cfg1 tr1 => retryLoop drv exec tx fuel cfg1 tr1
      | .done r => some r := rfl

/-- When the body goes round again, the guard of line 100 held and only the
retry counter changed, by one. -/
theorem loopBody_again {drv : Driver} {exec : TxExecFunc} {tx : Tx} {cfg cfg1 : options}
    {tr tr1 : List Event} (h : loopBody drv exec tx cfg tr = .again cfg1 tr1) :
    cfg.retryTimes < cfg.maxRetryTimes ∧
      cfg1 = { cfg with retryTimes := (cfg.retryTimes + 1) % uintModulus } := by
  unfold loopBody at h
  split at h
  · simp at h
  · unfold afterAttempt at h
    split at h
    · rename_i hg
      simp only [Step.again.injEq] at h
      refine ⟨?_, h.1.symm⟩
      unfold retryGuard at hg
      split at hg
      · split at hg
        · assumption
        · simp at hg
      · simp at hg
    · simp at h

/-- The body leaves when the retry counter has reached the maximum. -/
theorem loopBody_done_of_le (drv : Driver) (exec : TxExecFunc) (tx : Tx) (cfg : options)
    (tr : List Event) (h : cfg.maxRetryTimes ≤ cfg.retryTimes) :
    ∃ r, loopBody drv exec tx cfg tr = .done r := by
  cases hb : loopBody drv exec tx cfg tr with
  | again cfg1 tr1 => have := (loopBody_again hb).1; omega
  | done r => exact ⟨r, rfl⟩

/-- The loop leaves within `maxRetryTimes - retryTimes + 1` passes. -/
theorem retryLoop_returns (drv : Driver) (exec : TxExecFunc) (tx : Tx) :
    ∀ (fuel : Nat) (cfg : options) (tr : List Event),
      cfg.maxRetryTimes < uintModulus → cfg.maxRetryTimes - cfg.retryTimes < fuel →
      ∃ r, retryLoop drv exec tx fuel cfg tr = some r := by
  intro fuel
  induction fuel with
  | zero => intro cfg tr _ h; omega
  | succ fuel ih =>
    intro cfg tr hM hfuel
    rw [retryLoop_succ]
    cases hb : loopBody drv exec tx cfg tr with
    | done r => exact ⟨r, rfl⟩
    | again cfg1 tr1 =>
      obtain ⟨hlt, hcfg⟩ := loopBody_again hb
      have hmod : (cfg.retryTimes + 1) % uintModulus = cfg.retryTimes + 1 :=
        Nat.mod_eq_of_lt (by omega)
      subst hcfg
      simp only
      apply ih
      · exact hM
      · simp only [hmod]; omega

/-- More fuel does not change the run. -/
theorem retryLoop_mono (drv : Driver) (exec : TxExecFunc) (tx : Tx) :
    ∀ (fuel : Nat) (cfg : options) (tr : List Event) (r : Run) (k : Nat),
      retryLoop drv exec tx fuel cfg tr = some r →
      retryLoop drv exec tx (fuel + k) cfg tr = some r := by
  intro fuel
  induction fuel with
  | zero => intro cfg tr r k h; simp [retryLoop] at h
  | succ fuel ih =>
    intro cfg tr r k h
    have e : fuel + 1 + k = (fuel + k) + 1 := by omega
    rw [e, retryLoop_succ]
    rw [retryLoop_succ] at h
    cases hb : loopBody drv exec tx cfg tr with
    | done r1 => rw [hb] at h; exact h
    | again cfg1 tr1 => rw [hb] at h; exact ih _ _ _ _ h

/-- The invariant rule of the loop: a property of the state that every pass
keeps, and that gives `Q` when the body leaves, gives `Q` of the run. -/
theorem retryLoop_inv (drv : Driver) (exec : TxExecFunc) (tx : Tx)
    (P : options → List Event → Prop) (Q : Run → Prop)
    (hstep : ∀ cfg tr cfg1 tr1, P cfg tr →
      loopBody drv exec tx cfg tr = .again cfg1 tr1 → P cfg1 tr1)
    (hdone : ∀ cfg tr r, P cfg tr → loopBody drv exec tx cfg tr = .done r → Q r) :
    ∀ (fuel : Nat) (cfg : options) (tr : List Event) (r : Run),
      P cfg tr → retryLoop drv exec tx fuel cfg tr = some r → Q r := by
  intro fuel
  induction fuel with
  | zero => intro cfg tr r _ h; simp [retryLoop] at h
  | succ fuel ih =>
    intro cfg tr r hP h
    rw [retryLoop_succ] at h
    cases hb : loopBody drv exec tx cfg tr with
    | done r1 =>
      rw [hb] at h
      simp only [Option.some.injEq] at h
      subst h
      exact hdone cfg tr r1 hP hb
    | again cfg1 tr1 =>
      rw [hb] at h
      exact ih cfg1 tr1 r (hstep cfg tr cfg1 tr1 hP hb) h

/-! ## The configuration -/

theorem buildConfig_append (g : Globals) (opts : List (options → options))
    (o : options → options) :
    buildConfig g (opts ++ [o]) = o (buildConfig g opts) := by
  simp [buildConfig, List.foldl_append]

/-- A configuration built from the exported setters starts with the retry
counter at zero and holds a maximum that fits `uint`. -/
theorem buildConfig_setters (g : Globals) (opts : List (options → options))
    (h : ∀ o ∈ opts, IsSetter o) :
    (buildConfig g opts).retryTimes = 0 ∧ (buildConfig g opts).maxRetryTimes < uintModulus := by
  induction opts using List.reverseRecOn with
  | nil => simp [buildConfig, defaultOptions, uintModulus]
  | append_singleton opts o ih =>
    rw [buildConfig_append]
    have ho : IsSetter o := h o (by simp)
    have ih1 := ih (fun o1 h1 => h o1 (by simp [h1]))
    rcases ho with ⟨n, hn, rfl⟩ | ⟨d, rfl⟩ | ⟨l, rfl⟩ | ⟨f, rfl⟩
    · exact ⟨ih1.1, hn⟩
    · exact ih1
    · exact ih1
    · exact ih1

/-! ## One pass of the loop body, case by case -/

@[simp]
theorem execResults_sleepIfDelay (cfg : options) (tr : List Event) :
    execResults (sleepIfDelay cfg tr) = execResults tr := by
  unfold sleepIfDelay; split <;> simp [execResults]

@[simp]
theorem execTxs_sleepIfDelay (cfg : options) (tr : List Event) :
    execTxs (sleepIfDelay cfg tr) = execTxs tr := by
  unfold sleepIfDelay; split <;> simp [execTxs]

@[simp]
theorem commitResults_sleepIfDelay (cfg : options) (tr : List Event) :
    commitResults (sleepIfDelay cfg tr) = commitResults tr := by
  unfold sleepIfDelay; split <;> simp [commitResults]

@[simp]
theorem rollbackResults_sleepIfDelay (cfg : options) (tr : List Event) :
    rollbackResults (sleepIfDelay cfg tr) = rollbackResults tr := by
  unfold sleepIfDelay; split <;> simp [rollbackResults]

@[simp]
theorem checkArgs_sleepIfDelay (cfg : options) (tr : List Event) :
    checkArgs (sleepIfDelay cfg tr) = checkArgs tr := by
  unfold sleepIfDelay; split <;> simp [checkArgs]

@[simp]
theorem beginCount_sleepIfDelay (cfg : options) (tr : List Event) :
    beginCount (sleepIfDelay cfg tr) = beginCount tr := by
  unfold sleepIfDelay; split <;> simp [beginCount]

/-- The unit of work panics: the deferred function rolls back and the panic
goes on. -/
theorem loopBody_panic {drv : Driver} {exec : TxExecFunc} {tx : Tx} {cfg : options}
    {tr : List Event} {p : Payload} (h : exec tr tx = .panic p) :
    loopBody drv exec tx cfg tr =
      .done (recoverPanic drv tx cfg (tr ++ [.exec tx (.panic p)]) p) := by
  simp [loopBody, h]

/-- The unit of work returns an error: `Commit` is not called. -/
theorem loopBody_err {drv : Driver} {exec : TxExecFunc} {tx : Tx} {cfg : options}
    {tr : List Event} {e : Err} (h : exec tr tx = .ret (some e)) :
    loopBody drv exec tx cfg tr =
      afterAttempt drv tx cfg (some e) (tr ++ [.exec tx (.ret (some e))]) := by
  simp [loopBody, h, commitIfNil]

/-- The unit of work returns `nil`: `Commit` is called and gives `err`. -/
theorem loopBody_nil {drv : Driver} {exec : TxExecFunc} {tx : Tx} {cfg : options}
    {tr : List Event} (h : exec tr tx = .ret none) :
    loopBody drv exec tx cfg tr =
      afterAttempt drv tx cfg (drv.Commit (tr ++ [.exec tx (.ret none)]) tx)
        (tr ++ [.exec tx (.ret none),
          .commit tx (drv.Commit (tr ++ [.exec tx (.ret none)]) tx)]) := by
  simp [loopBody, h, commitIfNil]

/-- No error: the call returns `nil` with nothing more done. -/
theorem afterAttempt_nil (drv : Driver) (tx : Tx) (cfg : options) (tr : List Event) :
    afterAttempt drv tx cfg none tr =
      .done { result := .returned none, trace := tr, cfg := cfg } := by
  simp [afterAttempt, retryGuard, rollbackIfErr]

/-- An error that the classifier accepts below the maximum: go round again. -/
theorem afterAttempt_retry {drv : Driver} {tx : Tx} {cfg : options} {tr : List Event}
    {e : Err} {f : Err → Bool} (hf : cfg.checkRetryable = some f)
    (hlt : cfg.retryTimes < cfg.maxRetryTimes) (hfe : f e = true) :
    afterAttempt drv tx cfg (some e) tr =
      .again { cfg with retryTimes := (cfg.retryTimes + 1) % uintModulus }
        (sleepIfDelay cfg (tr ++ [.check e true])) := by
  simp [afterAttempt, retryGuard, hf, hlt, hfe]

/-- An error with no classifier: roll back and return it. -/
theorem afterAttempt_noCheck {drv : Driver} {tx : Tx} {cfg : options} {tr : List Event}
    {e : Err} (hf : cfg.checkRetryable = none) :
    afterAttempt drv tx cfg (some e) tr =
      .done { result := .returned (some e)
              trace := tr ++ [.rollback tx (drv.Rollback tr tx)]
              cfg := cfg } := by
  simp [afterAttempt, retryGuard, hf, rollbackIfErr]

/-- An error when the retry counter has reached the maximum: roll back and
return it; the classifier is not called. -/
theorem afterAttempt_max {drv : Driver} {tx : Tx} {cfg : options} {tr : List Event}
    {e : Err} (hge : cfg.maxRetryTimes ≤ cfg.retryTimes) :
    afterAttempt drv tx cfg (some e) tr =
      .done { result := .returned (some e)
              trace := tr ++ [.rollback tx (drv.Rollback tr tx)]
              cfg := cfg } := by
  have hlt : ¬ cfg.retryTimes < cfg.maxRetryTimes := by omega
  cases hf : cfg.checkRetryable <;> simp [afterAttempt, retryGuard, hf, hlt, rollbackIfErr]

/-- An error that the classifier rejects: roll back and return it. -/
theorem afterAttempt_reject {drv : Driver} {tx : Tx} {cfg : options} {tr : List Event}
    {e : Err} {f : Err → Bool} (hf : cfg.checkRetryable = some f)
    (hlt : cfg.retryTimes < cfg.maxRetryTimes) (hfe : f e = false) :
    afterAttempt drv tx cfg (some e) tr =
      .done { result := .returned (some e)
              trace := tr ++ [.check e false,
                .rollback tx (drv.Rollback (tr ++ [.check e false]) tx)]
              cfg := cfg } := by
  simp [afterAttempt, retryGuard, hf, hlt, hfe, rollbackIfErr]

theorem executeWith_begun {fuel : Nat} {drv : Driver} {ctx : Context} {db : TxBeginner}
    {exec : TxExecFunc} {cfg : options}
    (h : (db.BeginTx ctx (txOptionsOf cfg)).2 = none) :
    executeWith fuel drv ctx db exec cfg =
      retryLoop drv exec (db.BeginTx ctx (txOptionsOf cfg)).1 fuel cfg
        (beginTrace ctx db cfg) := by
  simp [executeWith, h]

theorem executeWith_beginFailed {fuel : Nat} {drv : Driver} {ctx : Context}
    {db : TxBeginner} {exec : TxExecFunc} {cfg : options} {e : Err}
    (h : (db.BeginTx ctx (txOptionsOf cfg)).2 = some e) :
    executeWith fuel drv ctx db exec cfg =
      some { result := .returned (some e), trace := beginTrace ctx db cfg, cfg := cfg } := by
  simp [executeWith, h]

/-! ## Runs of `Execute` -/

/-- With options built from the exported setters and more fuel than
`maxRetryTimes`, `Execute` ends; when `BeginTx` succeeded, a loop invariant
that holds after `BeginTx` gives its conclusion for the run. -/
theorem Execute_run_inv (fuel : Nat) (g : Globals) (drv : Driver) (ctx : Context)
    (db : TxBeginner) (exec : TxExecFunc) (opts : List (options → options))
    (P : options → List Event → Prop) (Q : Run → Prop)
    (hopts : ∀ o ∈ opts, IsSetter o)
    (hbegin : (db.BeginTx ctx (txOptionsOf (buildConfig g opts))).2 = none)
    (hfuel : (buildConfig g opts).maxRetryTimes < fuel)
    (hstart : P (buildConfig g opts) (beginTrace ctx db (buildConfig g opts)))
    (hstep : ∀ cfg tr cfg1 tr1, P cfg tr →
      loopBody drv exec (db.BeginTx ctx (txOptionsOf (buildConfig g opts))).1 cfg tr =
        .again cfg1 tr1 → P cfg1 tr1)
    (hdone : ∀ cfg tr r, P cfg tr →
      loopBody drv exec (db.BeginTx ctx (txOptionsOf (buildConfig g opts))).1 cfg tr =
        .done r → Q r) :
    ∃ r, Execute fuel g drv ctx db exec opts = some r ∧ Q r := by
  obtain ⟨_, hM⟩ := buildConfig_setters g opts hopts
  obtain ⟨r, hr⟩ := retryLoop_returns drv exec
    (db.BeginTx ctx (txOptionsOf (buildConfig g opts))).1 fuel (buildConfig g opts)
    (beginTrace ctx db (buildConfig g opts)) hM (by omega)
  refine ⟨r, ?_, ?_⟩
  · rw [Execute, executeWith_begun hbegin]; exact hr
  · exact retryLoop_inv drv exec _ P Q hstep hdone fuel _ _ r hstart hr

/-- The ways one pass of the loop body can go, with the trace it leaves. -/
theorem loopBody_cases (drv : Driver) (exec : TxExecFunc) (tx : Tx) (cfg : options)
    (tr : List Event) :
    (∃ p, exec tr tx = .panic p ∧
      loopBody drv exec tx cfg tr =
        .done { result := .panicked p
                trace := tr ++ [.exec tx (.panic p)] ++
                  [.rollback tx (drv.Rollback (tr ++ [.exec tx (.panic p)]) tx)]
                cfg := cfg }) ∨
    (exec tr tx = .ret none ∧ drv.Commit (tr ++ [.exec tx (.ret none)]) tx = none ∧
      loopBody drv exec tx cfg tr =
        .done { result := .returned none
                trace := tr ++ [.exec tx (.ret none), .commit tx none]
                cfg := cfg }) ∨
    (∃ e att,
      ((exec tr tx = .ret (some e) ∧ att = [.exec tx (.ret (some e))]) ∨
        (exec tr tx = .ret none ∧ drv.Commit (tr ++ [.exec tx (.ret none)]) tx = some e ∧
          att = [.exec tx (.ret none), .commit tx (some e)])) ∧
      ((∃ f, cfg.checkRetryable = some f ∧ cfg.retryTimes < cfg.maxRetryTimes ∧
          f e = true ∧
          loopBody drv exec tx cfg tr =
            .again { cfg with retryTimes := (cfg.retryTimes + 1) % uintModulus }
              (sleepIfDelay cfg (tr ++ att ++ [.check e true]))) ∨
        (∃ chk, (chk = [] ∨ chk = [.check e false]) ∧
          loopBody drv exec tx cfg tr =
            .done { result := .returned (some e)
                    trace := tr ++ att ++ chk ++
                      [.rollback tx (drv.Rollback (tr ++ att ++ chk) tx)]
                    cfg := cfg }))) := by
  have key : ∀ (e : Err) (t : List Event),
      (∃ f, cfg.checkRetryable = some f ∧ cfg.retryTimes < cfg.maxRetryTimes ∧
          f e = true ∧
          afterAttempt drv tx cfg (some e) t =
            .again { cfg with retryTimes := (cfg.retryTimes + 1) % uintModulus }
              (sleepIfDelay cfg (t ++ [.check e true]))) ∨
        (∃ chk, (chk = [] ∨ chk = [.check e false]) ∧
          afterAttempt drv tx cfg (some e) t =
            .done { result := .returned (some e)
                    trace := t ++ chk ++ [.rollback tx (drv.Rollback (t ++ chk) tx)]
                    cfg := cfg }) := by
    intro e t
    rcases Option.eq_none_or_eq_some cfg.checkRetryable with hf | ⟨f, hf⟩
    · exact Or.inr ⟨[], Or.inl rfl, by simp [afterAttempt_noCheck hf]⟩
    · by_cases hlt : cfg.retryTimes < cfg.maxRetryTimes
      · cases hfe : f e with
        | true => exact Or.inl ⟨f, hf, hlt, hfe, afterAttempt_retry hf hlt hfe⟩
        | false =>
          exact Or.inr ⟨[.check e false], Or.inr rfl, by simp [afterAttempt_reject hf hlt hfe]⟩
      · exact Or.inr ⟨[], Or.inl rfl, by simp [afterAttempt_max (Nat.le_of_not_lt hlt)]⟩
  cases he : exec tr tx with
  | panic p =>
    exact Or.inl ⟨p, rfl, by simp [loopBody_panic he, recoverPanic]⟩
  | ret err =>
    cases err with
    | some e =>
      refine Or.inr (Or.inr ⟨e, [.exec tx (.ret (some e))], Or.inl ⟨rfl, rfl⟩, ?_⟩)
      rw [loopBody_err he]
      exact key e _
    | none =>
      cases hc : drv.Commit (tr ++ [.exec tx (.ret none)]) tx with
      | none =>
        exact Or.inr (Or.inl ⟨rfl, rfl, by rw [loopBody_nil he, hc, afterAttempt_nil]⟩)
      | some e =>
        refine Or.inr (Or.inr ⟨e, [.exec tx (.ret none), .commit tx (some e)],
          Or.inr ⟨rfl, rfl, rfl⟩, ?_⟩)
        rw [loopBody_nil he, hc]
        have := key e (tr ++ [.exec tx (.ret none), .commit tx (some e)])
        simpa using this

/-- What the trace looks like when the body goes round again: one attempt
with an error `e`, then the classifier call that accepted `e`, then the
sleep. -/
theorem loopBody_again_inv {drv : Driver} {exec : TxExecFunc} {tx : Tx}
    {cfg cfg1 : options} {tr tr1 : List Event}
    (h : loopBody drv exec tx cfg tr = .again cfg1 tr1) :
    ∃ e att,
      (att = [.exec tx (.ret (some e))] ∨
        att = [.exec tx (.ret none), .commit tx (some e)]) ∧
      tr1 = sleepIfDelay cfg (tr ++ att ++ [.check e true]) := by
  rcases loopBody_cases drv exec tx cfg tr with
    ⟨p, _, hb⟩ | ⟨_, _, hb⟩ | ⟨e, att, hatt, ⟨f, _, _, _, hb⟩ | ⟨chk, _, hb⟩⟩
  · rw [hb] at h; simp at h
  · rw [hb] at h; simp at h
  · rw [hb] at h
    simp only [Step.again.injEq] at h
    refine ⟨e, att, ?_, h.2.symm⟩
    rcases hatt with ⟨_, ha⟩ | ⟨_, _, ha⟩
    · exact Or.inl ha
    · exact Or.inr ha
  · rw [hb] at h; simp at h

/-- What the run looks like when the body leaves: a panic followed by the
roll back; or a `nil` attempt ending in its `Commit`; or an attempt with an
error `e`, at most one classifier call that rejected `e`, and the roll
back. -/
theorem loopBody_done_inv {drv : Driver} {exec : TxExecFunc} {tx : Tx}
    {cfg : options} {tr : List Event} {r : Run}
    (h : loopBody drv exec tx cfg tr = .done r) :
    (∃ p rb, r.result = .panicked p ∧
      r.trace = tr ++ [.exec tx (.panic p), .rollback tx rb]) ∨
    (r.result = .returned none ∧
      r.trace = tr ++ [.exec tx (.ret none), .commit tx none]) ∨
    (∃ e att chk rb,
      (att = [.exec tx (.ret (some e))] ∨
        att = [.exec tx (.ret none), .commit tx (some e)]) ∧
      (chk = [] ∨ chk = [.check e false]) ∧
      r.result = .returned (some e) ∧
      r.trace = tr ++ att ++ chk ++ [.rollback tx rb]) := by
  rcases loopBody_cases drv exec tx cfg tr with
    ⟨p, _, hb⟩ | ⟨_, _, hb⟩ | ⟨e, att, hatt, ⟨f, _, _, _, hb⟩ | ⟨chk, hchk, hb⟩⟩
  · rw [hb] at h
    simp only [Step.done.injEq] at h
    subst h
    exact Or.inl ⟨p, drv.Rollback (tr ++ [.exec tx (.panic p)]) tx, rfl, by simp⟩
  · rw [hb] at h
    simp only [Step.done.injEq] at h
    subst h
    exact Or.inr (Or.inl ⟨rfl, rfl⟩)
  · rw [hb] at h; simp at h
  · rw [hb] at h
    simp only [Step.done.injEq] at h
    subst h
    refine Or.inr (Or.inr ⟨e, att, chk, _, ?_, hchk, rfl, rfl⟩)
    rcases hatt with ⟨_, ha⟩ | ⟨_, _, ha⟩
    · exact Or.inl ha
    · exact Or.inr ha

/-- A list of non-`nil` results does not start with `nil`. -/
theorem head_ne_none_of_forall_ne {l : List (Option Err)} (h : ∀ c ∈ l, c ≠ none) :
    l.head? ≠ some none := by
  cases l with
  | nil => simp
  | cons c cs =>
    simp only [List.head?_cons, ne_eq, Option.some.injEq]
    exact h c (by simp)

/-- When a list of non-`nil` results followed by `more` starts with `nil`, the
list was empty. -/
theorem eq_nil_of_head_append {l more : List (Option Err)} (h : ∀ c ∈ l, c ≠ none)
    (hh : (l ++ more).head? = some none) : l = [] := by
  cases l with
  | nil => rfl
  | cons c cs =>
    simp only [List.cons_append, List.head?_cons, Option.some.injEq] at hh
    exact absurd hh (h c (by simp))

/-- The loop when every invocation fails and the classifier accepts every
error: `maxRetryTimes - retryTimes + 1` invocations, and the call returns the
error of the last one. -/
theorem retryLoop_allFail (drv : Driver) (exec : TxExecFunc) (tx : Tx) (f : Err → Bool)
    (hfail : ∀ tr t, ∃ e, exec tr t = .ret (some e)) (hall : ∀ e, f e = true) :
    ∀ (n fuel : Nat) (cfg : options) (tr : List Event),
      cfg.checkRetryable = some f → cfg.maxRetryTimes < uintModulus →
      cfg.retryTimes + n = cfg.maxRetryTimes → n < fuel →
      ∃ r e, retryLoop drv exec tx fuel cfg tr = some r ∧
        execCount r.trace = execCount tr + n + 1 ∧
        (execResults r.trace).getLast? = some (.ret (some e)) ∧
        r.result = .returned (some e) := by
  intro n
  induction n with
  | zero =>
    intro fuel cfg tr hf hM hn hfuel
    obtain ⟨fuel, rfl⟩ : ∃ k, fuel = k + 1 := ⟨fuel - 1, by omega⟩
    obtain ⟨e, he⟩ := hfail tr tx
    rw [retryLoop_succ, loopBody_err he, afterAttempt_max (by omega)]
    refine ⟨_, e, rfl, ?_, ?_, rfl⟩
    · simp [execCount, execResults]
    · simp [execResults]
  | succ n ih =>
    intro fuel cfg tr hf hM hn hfuel
    obtain ⟨fuel, rfl⟩ : ∃ k, fuel = k + 1 := ⟨fuel - 1, by omega⟩
    obtain ⟨e, he⟩ := hfail tr tx
    have hmod : (cfg.retryTimes + 1) % uintModulus = cfg.retryTimes + 1 :=
      Nat.mod_eq_of_lt (by omega)
    rw [retryLoop_succ, loopBody_err he, afterAttempt_retry hf (by omega) (hall e)]
    simp only
    obtain ⟨r, e1, h1, h2, h3, h4⟩ :=
      ih fuel { cfg with retryTimes := (cfg.retryTimes + 1) % uintModulus }
        (sleepIfDelay cfg (tr ++ [.exec tx (.ret (some e))] ++ [.check e true]))
        hf hM (by simp only [hmod]; omega) (by omega)
    refine ⟨r, e1, h1, ?_, h3, h4⟩
    rw [h2]
    simp [execCount, execResults]
    omega

/-- The loop when the unit of work fails with accepted errors until its
invocation number `k + 1`, which returns `nil`, and `Commit` then returns
`nil`. -/
theorem retryLoop_failThenOk (drv : Driver) (exec : TxExecFunc) (tx : Tx) (f : Err → Bool)
    (k : Nat)
    (hfail : ∀ tr t, execCount tr < k → ∃ e, exec tr t = .ret (some e) ∧ f e = true)
    (hok : ∀ tr t, execCount tr = k → exec tr t = .ret none)
    (hcommit : ∀ tr t, execCount tr = k + 1 → drv.Commit tr t = none) :
    ∀ (n fuel : Nat) (cfg : options) (tr : List Event),
      cfg.checkRetryable = some f → cfg.maxRetryTimes < uintModulus →
      execCount tr + n = k → cfg.retryTimes + n ≤ cfg.maxRetryTimes → n < fuel →
      commitCount tr = 0 → rollbackCount tr = 0 →
      ∃ r, retryLoop drv exec tx fuel cfg tr = some r ∧
        r.result = .returned none ∧ execCount r.trace = k + 1 ∧
        commitCount r.trace = 1 ∧ rollbackCount r.trace = 0 := by
  intro n
  induction n with
  | zero =>
    intro fuel cfg tr hf hM hn hrt hfuel hc hr
    obtain ⟨fuel, rfl⟩ : ∃ j, fuel = j + 1 := ⟨fuel - 1, by omega⟩
    have he := hok tr tx (by omega)
    have hcm : drv.Commit (tr ++ [.exec tx (.ret none)]) tx = none :=
      hcommit _ tx (by simp [execCount, execResults] at hn ⊢; omega)
    rw [retryLoop_succ, loopBody_nil he, hcm, afterAttempt_nil]
    refine ⟨_, rfl, rfl, ?_, ?_, ?_⟩
    · simp [execCount, execResults] at hn ⊢; omega
    · simp [commitCount, commitResults] at hc ⊢; simp [hc]
    · simp [rollbackCount, rollbackResults] at hr ⊢; simp [hr]
  | succ n ih =>
    intro fuel cfg tr hf hM hn hrt hfuel hc hr
    obtain ⟨fuel, rfl⟩ : ∃ j, fuel = j + 1 := ⟨fuel - 1, by omega⟩
    obtain ⟨e, he, hfe⟩ := hfail tr tx (by omega)
    have hmod : (cfg.retryTimes + 1) % uintModulus = cfg.retryTimes + 1 :=
      Nat.mod_eq_of_lt (by omega)
    rw [retryLoop_succ, loopBody_err he, afterAttempt_retry hf (by omega) hfe]
    simp only
    refine ih fuel _ _ hf hM ?_ ?_ ?_ ?_ ?_
    · simp [execCount, execResults] at hn ⊢; omega
    · simp only [hmod]; omega
    · omega
    · simp [commitCount, commitResults] at hc ⊢; simp [hc]
    · simp [rollbackCount, rollbackResults] at hr ⊢; simp [hr]

theorem isSetter_MaxRetryTimes {n : Nat} (h : n < uintModulus) : IsSetter (MaxRetryTimes n) :=
  Or.inl ⟨n, h, rfl⟩

theorem isSetter_RetryDelay (d : time.Duration) : IsSetter (RetryDelay d) :=
  Or.inr (Or.inl ⟨d, rfl⟩)

theorem isSetter_IsolationLevel (l : sql.IsolationLevel) : IsSetter (IsolationLevel l) :=
  Or.inr (Or.inr (Or.inl ⟨l, rfl⟩))

theorem isSetter_CheckRetryable (f : CheckRetryableFunc) : IsSetter (CheckRetryable f) :=
  Or.inr (Or.inr (Or.inr ⟨f, rfl⟩))

theorem errAfter_append (cur : Option Err) (a b : List Event) :
    errAfter cur (a ++ b) = errAfter (errAfter cur a) b := by
  induction a generalizing cur with
  | nil => rfl
  | cons ev a ih =>
    cases ev with
    | exec t out => cases out <;> simp [errAfter, ih]
    | _ => simp [errAfter, ih]

/-- One pass of the loop body does not depend on what `Rollback` returns: with
the same `Commit`, the body goes round again in the same state, or leaves with
the same result. -/
theorem loopBody_rollback_irrelevant (drv drv2 : Driver) (exec : TxExecFunc) (tx : Tx)
    (cfg : options) (tr : List Event) (hC : drv2.Commit = drv.Commit) :
    (∀ cfg1 tr1, loopBody drv exec tx cfg tr = .again cfg1 tr1 →
      loopBody drv2 exec tx cfg tr = .again cfg1 tr1) ∧
    (∀ r, loopBody drv exec tx cfg tr = .done r →
      ∃ r2, loopBody drv2 exec tx cfg tr = .done r2 ∧ r2.result = r.result) := by
  unfold loopBody
  cases exec tr tx with
  | panic p => simp [recoverPanic]
  | ret err =>
    cases err with
    | some e =>
      simp only [commitIfNil, afterAttempt]
      split <;> simp
    | none =>
      simp only [commitIfNil, afterAttempt, hC]
      split <;> simp

/-- The loop does not depend on what `Rollback` returns. -/
theorem retryLoop_rollback_irrelevant (drv drv2 : Driver) (exec : TxExecFunc) (tx : Tx)
    (hC : drv2.Commit = drv.Commit) :
    ∀ (fuel : Nat) (cfg : options) (tr : List Event) (r : Run),
      retryLoop drv exec tx fuel cfg tr = some r →
      ∃ r2, retryLoop drv2 exec tx fuel cfg tr = some r2 ∧ r2.result = r.result := by
  intro fuel
  induction fuel with
  | zero => intro cfg tr r h; simp [retryLoop] at h
  | succ fuel ih =>
    intro cfg tr r h
    rw [retryLoop_succ] at h ⊢
    obtain ⟨h1, h2⟩ := loopBody_rollback_irrelevant drv drv2 exec tx cfg tr hC
    cases hb : loopBody drv exec tx cfg tr with
    | again cfg1 tr1 =>
      rw [hb] at h
      rw [h1 cfg1 tr1 hb]
      exact ih cfg1 tr1 r h
    | done r1 =>
      rw [hb] at h
      simp only [Option.some.injEq] at h
      subst h
      obtain ⟨r2, hr2, hres⟩ := h2 r1 hb
      rw [hr2]
      exact ⟨r2, rfl, hres⟩

/-- The value that the loop returns is the last value assigned to `err` by the
unit of work or by `Commit`. -/
theorem retryLoop_result_errAfter (drv : Driver) (exec : TxExecFunc) (tx : Tx) :
    ∀ (fuel : Nat) (cfg : options) (tr : List Event) (r : Run),
      retryLoop drv exec tx fuel cfg tr = some r →
      ∀ err, r.result = .returned err → errAfter none r.trace = err := by
  intro fuel cfg tr r h
  refine retryLoop_inv drv exec tx (fun _ _ => True)
    (fun r => ∀ err, r.result = .returned err → errAfter none r.trace = err)
    (fun _ _ _ _ _ _ => trivial) ?_ fuel cfg tr r trivial h
  intro cfg tr r _ h err hres
  rcases loopBody_done_inv h with ⟨p, rb, hr, htr⟩ | ⟨hr, htr⟩ |
    ⟨e, att, chk, rb, hatt, hchk, hr, htr⟩
  · rw [hr] at hres; simp at hres
  · rw [hr] at hres
    simp only [Outcome.returned.injEq] at hres
    subst hres
    rw [htr, errAfter_append]
    rfl
  · rw [hr] at hres
    simp only [Outcome.returned.injEq] at hres
    subst hres
    rw [htr]
    rcases hatt with rfl | rfl <;> rcases hchk with rfl | rfl <;>
      simp [errAfter_append, errAfter]

theorem sleepIfDelay_eq_append (cfg : options) (tr : List Event) :
    sleepIfDelay cfg tr = tr ++ sleepIfDelay cfg [] := by
  unfold sleepIfDelay
  split <;> simp

/-! ## One pass of the loop body, with the tests that decided it -/

/-- When the body goes round again: one attempt with an error `e`, a
classifier that accepted `e` with the counter below the maximum, the counter
one higher, and the sleep. -/
theorem loopBody_again_full {drv : Driver} {exec : TxExecFunc} {tx : Tx}
    {cfg cfg1 : options} {tr tr1 : List Event}
    (h : loopBody drv exec tx cfg tr = .again cfg1 tr1) :
    ∃ e f att,
      (att = [.exec tx (.ret (some e))] ∨
        att = [.exec tx (.ret none), .commit tx (some e)]) ∧
      cfg.checkRetryable = some f ∧ f e = true ∧
      cfg.retryTimes < cfg.maxRetryTimes ∧
      cfg1 = { cfg with retryTimes := (cfg.retryTimes + 1) % uintModulus } ∧
      tr1 = sleepIfDelay cfg (tr ++ att ++ [.check e true]) := by
  rcases loopBody_cases drv exec tx cfg tr with
    ⟨p, _, hb⟩ | ⟨_, _, hb⟩ | ⟨e, att, hatt, ⟨f, hf, hlt, hfe, hb⟩ | ⟨chk, _, hb⟩⟩
  · rw [hb] at h; simp at h
  · rw [hb] at h; simp at h
  · rw [hb] at h
    simp only [Step.again.injEq] at h
    refine ⟨e, f, att, ?_, hf, hfe, hlt, h.1.symm, h.2.symm⟩
    rcases hatt with ⟨_, ha⟩ | ⟨_, _, ha⟩
    · exact Or.inl ha
    · exact Or.inr ha
  · rw [hb] at h; simp at h

/-- With an error, the part of the body after the attempt leaves in one of
two ways: with no classifier call, when no classifier is set or the counter
has reached the maximum; or after a classifier call that rejected the
error. -/
theorem afterAttempt_done_full {drv : Driver} {tx : Tx} {cfg : options}
    {tr : List Event} {e : Err} {r : Run}
    (h : afterAttempt drv tx cfg (some e) tr = .done r) :
    r.cfg = cfg ∧ r.result = .returned (some e) ∧
      ∃ rb,
        ((cfg.checkRetryable = none ∨ cfg.maxRetryTimes ≤ cfg.retryTimes) ∧
          r.trace = tr ++ [.rollback tx rb]) ∨
        (∃ f, cfg.checkRetryable = some f ∧ cfg.retryTimes < cfg.maxRetryTimes ∧
          f e = false ∧ r.trace = tr ++ [.check e false, .rollback tx rb]) := by
  rcases Option.eq_none_or_eq_some cfg.checkRetryable with hf | ⟨f, hf⟩
  · rw [afterAttempt_noCheck hf] at h
    simp only [Step.done.injEq] at h
    subst h
    exact ⟨rfl, rfl, _, Or.inl ⟨Or.inl hf, rfl⟩⟩
  · by_cases hlt : cfg.retryTimes < cfg.maxRetryTimes
    · cases hfe : f e with
      | true => rw [afterAttempt_retry hf hlt hfe] at h; simp at h
      | false =>
        rw [afterAttempt_reject hf hlt hfe] at h
        simp only [Step.done.injEq] at h
        subst h
        exact ⟨rfl, rfl, _, Or.inr ⟨f, hf, hlt, hfe, rfl⟩⟩
    · rw [afterAttempt_max (Nat.le_of_not_lt hlt)] at h
      simp only [Step.done.injEq] at h
      subst h
      exact ⟨rfl, rfl, _, Or.inl ⟨Or.inr (Nat.le_of_not_lt hlt), rfl⟩⟩

/-- When the body leaves, the configuration is the one it entered with, and
the run ends in one of four ways: a panic and the roll back; a `nil` attempt
and its `Commit`; an attempt with an error and the roll back with no
classifier call; an attempt with an error, a classifier call that rejected
it, and the roll back. -/
theorem loopBody_done_full {drv : Driver} {exec : TxExecFunc} {tx : Tx}
    {cfg : options} {tr : List Event} {r : Run}
    (h : loopBody drv exec tx cfg tr = .done r) :
    r.cfg = cfg ∧
    ((∃ p rb, r.result = .panicked p ∧
        r.trace = tr ++ [.exec tx (.panic p), .rollback tx rb]) ∨
      (r.result = .returned none ∧
        r.trace = tr ++ [.exec tx (.ret none), .commit tx none]) ∨
      (∃ e att rb,
        (att = [.exec tx (.ret (some e))] ∨
          att = [.exec tx (.ret none), .commit tx (some e)]) ∧
        r.result = .returned (some e) ∧
        (((cfg.checkRetryable = none ∨ cfg.maxRetryTimes ≤ cfg.retryTimes) ∧
            r.trace = tr ++ att ++ [.rollback tx rb]) ∨
          (∃ f, cfg.checkRetryable = some f ∧ cfg.retryTimes < cfg.maxRetryTimes ∧
            f e = false ∧ r.trace = tr ++ att ++ [.check e false, .rollback tx rb])))) := by
  cases he : exec tr tx with
  | panic p =>
    rw [loopBody_panic he] at h
    simp only [Step.done.injEq] at h
    subst h
    exact ⟨rfl, Or.inl ⟨p, drv.Rollback (tr ++ [.exec tx (.panic p)]) tx, rfl,
      by simp [recoverPanic]⟩⟩
  | ret err =>
    cases err with
    | some e =>
      rw [loopBody_err he] at h
      obtain ⟨hc, hres, rb, hform⟩ := afterAttempt_done_full h
      refine ⟨hc, Or.inr (Or.inr ⟨e, [.exec tx (.ret (some e))], rb, Or.inl rfl, hres, ?_⟩)⟩
      rcases hform with ⟨hno, htr⟩ | ⟨f, hf, hlt, hfe, htr⟩
      · exact Or.inl ⟨hno, htr⟩
      · exact Or.inr ⟨f, hf, hlt, hfe, htr⟩
    | none =>
      rw [loopBody_nil he] at h
      cases hcm : drv.Commit (tr ++ [.exec tx (.ret none)]) tx with
      | none =>
        rw [hcm, afterAttempt_nil] at h
        simp only [Step.done.injEq] at h
        subst h
        exact ⟨rfl, Or.inr (Or.inl ⟨rfl, rfl⟩)⟩
      | some e =>
        rw [hcm] at h
        obtain ⟨hc, hres, rb, hform⟩ := afterAttempt_done_full h
        refine ⟨hc, Or.inr (Or.inr ⟨e, [.exec tx (.ret none), .commit tx (some e)], rb,
          Or.inr rfl, hres, ?_⟩)⟩
        rcases hform with ⟨hno, htr⟩ | ⟨f, hf, hlt, hfe, htr⟩
        · exact Or.inl ⟨hno, by simpa using htr⟩
        · exact Or.inr ⟨f, hf, hlt, hfe, by simpa using htr⟩

/-! ## The states of the loop -/

theorem loopStates_succ (drv : Driver) (exec : TxExecFunc) (tx : Tx) (fuel : Nat)
    (cfg : options) (tr : List Event) :
    loopStates drv exec tx (fuel + 1) cfg tr =
      (cfg, tr) ::
        match loopBody drv exec tx cfg tr with
        | .again cfg1 tr1 => loopStates drv exec tx fuel cfg1 tr1
        | .done _ => [] := rfl

/-- A property of the state that every pass keeps holds in every state in
which the body is entered. -/
theorem loopStates_inv (drv : Driver) (exec : TxExecFunc) (tx : Tx)
    (P : options → List Event → Prop)
    (hstep : ∀ cfg tr cfg1 tr1, P cfg tr →
      loopBody drv exec tx cfg tr = .again cfg1 tr1 → P cfg1 tr1) :
    ∀ (fuel : Nat) (cfg : options) (tr : List Event),
      P cfg tr → ∀ s ∈ loopStates drv exec tx fuel cfg tr, P s.1 s.2 := by
  intro fuel
  induction fuel with
  | zero => intro cfg tr _ s hs; simp [loopStates] at hs
  | succ fuel ih =>
    intro cfg tr hP s hs
    rw [loopStates_succ] at hs
    rcases List.mem_cons.1 hs with rfl | hs
    · exact hP
    · cases hb : loopBody drv exec tx cfg tr with
      | done r1 => rw [hb] at hs; simp at hs
      | again cfg1 tr1 =>
        rw [hb] at hs
        exact ih cfg1 tr1 (hstep cfg tr cfg1 tr1 hP hb) s hs

/-- From one entry of the body to the next the retry counter goes up by one,
with no wrap. -/
theorem loopStates_counter (drv : Driver) (exec : TxExecFunc) (tx : Tx) :
    ∀ (fuel : Nat) (cfg : options) (tr : List Event),
      cfg.maxRetryTimes < uintModulus →
      (loopStates drv exec tx fuel cfg tr).map (fun s => s.1.retryTimes) =
        List.range' cfg.retryTimes (loopStates drv exec tx fuel cfg tr).length := by
  intro fuel
  induction fuel with
  | zero => intro cfg tr _; simp [loopStates]
  | succ fuel ih =>
    intro cfg tr hM
    rw [loopStates_succ]
    cases hb : loopBody drv exec tx cfg tr with
    | done r1 => simp [List.range']
    | again cfg1 tr1 =>
      obtain ⟨e, f, att, _, _, _, hlt, hcfg, _⟩ := loopBody_again_full hb
      have hmod : (cfg.retryTimes + 1) % uintModulus = cfg.retryTimes + 1 :=
        Nat.mod_eq_of_lt (by omega)
      have h1 : cfg1.retryTimes = cfg.retryTimes + 1 := by rw [hcfg]; exact hmod
      have h2 : cfg1.maxRetryTimes < uintModulus := by rw [hcfg]; exact hM
      simp only [List.map_cons, List.length_cons, List.range'_succ, ih cfg1 tr1 h2, h1]

/-- The run has one invocation of the unit of work for each entry of the
body, and it ends with the configuration of the last entry. -/
theorem loopStates_run (drv : Driver) (exec : TxExecFunc) (tx : Tx) :
    ∀ (fuel : Nat) (cfg : options) (tr : List Event) (r : Run),
      retryLoop drv exec tx fuel cfg tr = some r →
      execCount r.trace = execCount tr + (loopStates drv exec tx fuel cfg tr).length ∧
      ∃ trLast, (loopStates drv exec tx fuel cfg tr).getLast? = some (r.cfg, trLast) ∧
        execCount r.trace = execCount trLast + 1 := by
  intro fuel
  induction fuel with
  | zero => intro cfg tr r h; simp [retryLoop] at h
  | succ fuel ih =>
    intro cfg tr r h
    rw [retryLoop_succ] at h
    rw [loopStates_succ]
    cases hb : loopBody drv exec tx cfg tr with
    | done r1 =>
      rw [hb] at h
      simp only [Option.some.injEq] at h
      subst h
      obtain ⟨hcfg, hform⟩ := loopBody_done_full hb
      have hex : execCount r1.trace = execCount tr + 1 := by
        unfold execCount
        rcases hform with ⟨p, rb, _, htr⟩ | ⟨_, htr⟩ | ⟨e, att, rb, hatt, _, hform⟩
        · rw [htr]; simp [execResults]
        · rw [htr]; simp [execResults]
        · rcases hform with ⟨_, htr⟩ | ⟨f, _, _, _, htr⟩ <;> rw [htr] <;>
            rcases hatt with rfl | rfl <;> simp [execResults]
      exact ⟨by simpa using hex, tr, by simp [hcfg], hex⟩
    | again cfg1 tr1 =>
      rw [hb] at h
      obtain ⟨hcount, trLast, hlast, hfin⟩ := ih cfg1 tr1 r h
      obtain ⟨e, f, att, hatt, _, _, _, _, htr1⟩ := loopBody_again_full hb
      have hex : execCount tr1 = execCount tr + 1 := by
        rw [htr1]
        unfold execCount
        rcases hatt with rfl | rfl <;> simp [execResults]
      refine ⟨by simp only [List.length_cons]; omega, trLast, ?_, hfin⟩
      cases hl : loopStates drv exec tx fuel cfg1 tr1 with
      | nil => rw [hl] at hlast; simp at hlast
      | cons s ss =>
        rw [hl] at hlast
        show ((cfg, tr) :: loopStates drv exec tx fuel cfg1 tr1).getLast? = _
        rw [hl, List.getLast?_cons_cons]
        exact hlast

/-! ## Reading the attempts and the sleeps of a trace -/

@[simp]
theorem attemptErrs_append (a b : List Event) :
    attemptErrs (a ++ b) = attemptErrs a ++ attemptErrs b := by
  induction a with
  | nil => rfl
  | cons ev a ih =>
    cases ev with
    | exec t out =>
      cases out with
      | ret err => cases err <;> simp [attemptErrs, ih]
      | panic p => simp [attemptErrs, ih]
    | _ => simp [attemptErrs, ih]

@[simp]
theorem attemptErrs_sleepIfDelay (cfg : options) (tr : List Event) :
    attemptErrs (sleepIfDelay cfg tr) = attemptErrs tr := by
  unfold sleepIfDelay; split <;> simp [attemptErrs]

@[simp]
theorem sleepDurations_append (a b : List Event) :
    sleepDurations (a ++ b) = sleepDurations a ++ sleepDurations b := by
  induction a with
  | nil => rfl
  | cons ev a ih => cases ev <;> simp [sleepDurations, ih]

/-- When the run ends in a panic, the last invocation of the unit of work
panicked. -/
theorem loopBody_done_panic {drv : Driver} {exec : TxExecFunc} {tx : Tx}
    {cfg : options} {tr : List Event} {r : Run} {p : Payload}
    (h : loopBody drv exec tx cfg tr = .done r) (hp : r.result = .panicked p) :
    exec tr tx = .panic p := by
  rcases loopBody_cases drv exec tx cfg tr with
    ⟨q, hq, hb⟩ | ⟨_, _, hb⟩ | ⟨e, att, hatt, ⟨f, _, _, _, hb⟩ | ⟨chk, _, hb⟩⟩
  · rw [hb] at h
    simp only [Step.done.injEq] at h
    subst h
    simp only [Outcome.panicked.injEq] at hp
    rw [← hp]; exact hq
  · rw [hb] at h
    simp only [Step.done.injEq] at h
    subst h
    simp at hp
  · rw [hb] at h; simp at h
  · rw [hb] at h
    simp only [Step.done.injEq] at h
    subst h
    simp at hp

/-! ## Where the sleeps are -/

/-- Appending calls that start with an invocation of the unit of work and
hold no sleep: every sleep is then directly followed by an invocation. -/
theorem sleeps_placed_append (delay : time.Duration) (tr more : List Event)
    (hpos : ∀ before d after, tr = before ++ .sleep d :: after →
      d = delay ∧ (∃ b2 e, before = b2 ++ [.check e true]) ∧
        (after = [] ∨ ∃ t out a2, after = .exec t out :: a2))
    (hquiet : sleepDurations more = [])
    (hhead : ∃ t out m2, more = .exec t out :: m2) :
    ∀ before d after, tr ++ more = before ++ .sleep d :: after →
      d = delay ∧ (∃ b2 e, before = b2 ++ [.check e true]) ∧
        ∃ t out a2, after = .exec t out :: a2 := by
  intro before d after heq
  rcases List.append_eq_append_iff.1 heq with ⟨a1, _, hm⟩ | ⟨c1, ht, hs⟩
  · rw [hm] at hquiet
    simp [sleepDurations] at hquiet
  · cases c1 with
    | nil =>
      simp only [List.nil_append] at hs
      rw [← hs] at hquiet
      simp [sleepDurations] at hquiet
    | cons x c2 =>
      simp only [List.cons_append, List.cons.injEq] at hs
      obtain ⟨hx, hafter⟩ := hs
      subst hx
      obtain ⟨hd, hb, hnext⟩ := hpos before d c2 ht
      refine ⟨hd, hb, ?_⟩
      rcases hnext with rfl | ⟨t, out, a2, rfl⟩
      · obtain ⟨t, out, m2, rfl⟩ := hhead
        exact ⟨t, out, m2, by simpa using hafter⟩
      · exact ⟨t, out, a2 ++ more, by simpa using hafter⟩

/-- Appending one sleep after a classifier call that accepted an error. -/
theorem sleeps_placed_sleep (delay : time.Duration) (tr : List Event) (e : Err)
    (hpos : ∀ before d after, tr ++ [.check e true] = before ++ .sleep d :: after →
      d = delay ∧ (∃ b2 e1, before = b2 ++ [.check e1 true]) ∧
        ∃ t out a2, after = .exec t out :: a2) :
    ∀ before d after,
      tr ++ [.check e true] ++ [.sleep delay] = before ++ .sleep d :: after →
      d = delay ∧ (∃ b2 e1, before = b2 ++ [.check e1 true]) ∧
        (after = [] ∨ ∃ t out a2, after = .exec t out :: a2) := by
  intro before d after heq
  rcases List.append_eq_append_iff.1 heq with ⟨a1, hb, hm⟩ | ⟨c1, ht, hs⟩
  · cases a1 with
    | nil =>
      simp only [List.nil_append, List.cons.injEq, Event.sleep.injEq] at hm
      obtain ⟨hd, hafter⟩ := hm
      exact ⟨hd.symm, ⟨tr, e, by simpa using hb⟩, Or.inl hafter.symm⟩
    | cons x a2 =>
      simp only [List.cons_append, List.cons.injEq] at hm
      obtain ⟨_, hnil⟩ := hm
      cases a2 <;> simp at hnil
  · cases c1 with
    | nil =>
      simp only [List.nil_append, List.cons.injEq, Event.sleep.injEq] at hs
      obtain ⟨hd, hafter⟩ := hs
      exact ⟨hd, ⟨tr, e, by simpa using ht.symm⟩, Or.inl hafter⟩
    | cons x c2 =>
      simp only [List.cons_append, List.cons.injEq] at hs
      obtain ⟨hx, hafter⟩ := hs
      subst hx
      obtain ⟨hd, hb, t, out, a2, rfl⟩ := hpos before d c2 ht
      exact ⟨hd, hb, Or.inr ⟨t, out, a2 ++ [.sleep delay], by simpa using hafter⟩⟩

/-! ## Option lists -/

/-- Applying a list of options to a configuration: every field holds the
argument of the last option for it, or what it held before; the retry counter
is not touched. -/
theorem foldl_toFunc_fields (os : List OptionCall) :
    ∀ c : options,
      let r := (os.map OptionCall.toFunc).foldl (fun cfg opt => opt cfg) c
      r.maxRetryTimes = (lastMaxRetryTimes os).getD c.maxRetryTimes ∧
      r.retryDelay = (lastRetryDelay os).getD c.retryDelay ∧
      r.isolation = (lastIsolationLevel os).getD c.isolation ∧
      r.checkRetryable = (lastCheckRetryable os).getD c.checkRetryable ∧
      r.retryTimes = c.retryTimes := by
  induction os with
  | nil => intro c; simp [lastMaxRetryTimes, lastRetryDelay, lastIsolationLevel, lastCheckRetryable]
  | cons o os ih =>
    intro c
    have h := ih (o.toFunc c)
    simp only [List.map_cons, List.foldl_cons]
    cases o <;>
      simpa [OptionCall.toFunc, MaxRetryTimes, RetryDelay, IsolationLevel, CheckRetryable,
        lastMaxRetryTimes, lastRetryDelay, lastIsolationLevel, lastCheckRetryable] using h

theorem buildConfig_fields (g : Globals) (os : List OptionCall) :
    (buildConfig g (os.map OptionCall.toFunc)).maxRetryTimes = (lastMaxRetryTimes os).getD 3 ∧
    (buildConfig g (os.map OptionCall.toFunc)).retryDelay = (lastRetryDelay os).getD 0 ∧
    (buildConfig g (os.map OptionCall.toFunc)).isolation =
      (lastIsolationLevel os).getD sql.LevelDefault ∧
    (buildConfig g (os.map OptionCall.toFunc)).checkRetryable =
      (lastCheckRetryable os).getD g.defaultCheckRetryable ∧
    (buildConfig g (os.map OptionCall.toFunc)).retryTimes = 0 :=
  foldl_toFunc_fields os (defaultOptions g)

/-- The run does not depend on the fuel, once there is enough of it. -/
theorem retryLoop_fuel_irrelevant (drv : Driver) (exec : TxExecFunc) (tx : Tx)
    (fuel fuel2 : Nat) (cfg : options) (tr : List Event) (r r2 : Run)
    (h : retryLoop drv exec tx fuel cfg tr = some r)
    (h2 : retryLoop drv exec tx fuel2 cfg tr = some r2) : r2 = r := by
  rcases Nat.le_total fuel fuel2 with hle | hle
  · obtain ⟨k, rfl⟩ := Nat.exists_eq_add_of_le hle
    rw [retryLoop_mono drv exec tx fuel cfg tr r k h] at h2
    exact (Option.some.inj h2).symm
  · obtain ⟨k, rfl⟩ := Nat.exists_eq_add_of_le hle
    rw [retryLoop_mono drv exec tx fuel2 cfg tr r2 k h2] at h
    exact Option.some.inj h

/-- Every call that the loop adds to the trace acts on the handle the loop
was given, and none is a `BeginTx`. -/
theorem retryLoop_same_tx (drv : Driver) (exec : TxExecFunc) (tx : Tx)
    (fuel : Nat) (cfg : options) (tr : List Event) (r : Run)
    (h : retryLoop drv exec tx fuel cfg tr = some r) :
    ∃ rest, r.trace = tr ++ rest ∧ beginCount rest = 0 ∧
      ∀ ev ∈ rest, ∀ t, eventTx ev = some t → t = tx := by
  refine retryLoop_inv drv exec tx
    (fun _ tr1 => ∃ rest, tr1 = tr ++ rest ∧ beginCount rest = 0 ∧
      ∀ ev ∈ rest, ∀ t, eventTx ev = some t → t = tx)
    (fun r => ∃ rest, r.trace = tr ++ rest ∧ beginCount rest = 0 ∧
      ∀ ev ∈ rest, ∀ t, eventTx ev = some t → t = tx)
    ?_ ?_ fuel cfg tr r ⟨[], by simp, rfl, by simp⟩ h
  · rintro cfg0 tr0 cfg1 tr1 ⟨rest, rfl, hb, htx⟩ hstep
    obtain ⟨e, att, hatt, rfl⟩ := loopBody_again_inv hstep
    refine ⟨rest ++ att ++ [.check e true] ++ sleepIfDelay cfg0 [], ?_, ?_, ?_⟩
    · rw [sleepIfDelay_eq_append]; simp
    · rcases hatt with rfl | rfl <;> simp [beginCount, hb]
    · intro ev hev t ht
      simp only [List.mem_append, List.mem_singleton] at hev
      rcases hev with ((hev | hev) | hev) | hev
      · exact htx ev hev t ht
      · rcases hatt with rfl | rfl
        · simp only [List.mem_singleton] at hev
          subst hev; simp [eventTx] at ht; exact ht.symm
        · simp only [List.mem_cons, List.mem_singleton, List.not_mem_nil, or_false] at hev
          rcases hev with rfl | rfl <;> simp [eventTx] at ht <;> exact ht.symm
      · subst hev; simp [eventTx] at ht
      · unfold sleepIfDelay at hev
        split at hev
        · simp only [List.nil_append, List.mem_singleton] at hev
          subst hev; simp [eventTx] at ht
        · simp at hev
  · rintro cfg0 tr0 r0 ⟨rest, rfl, hb, htx⟩ hstep
    rcases loopBody_done_inv hstep with ⟨p, rb, _, htr⟩ | ⟨_, htr⟩ |
      ⟨e, att, chk, rb, hatt, hchk, _, htr⟩
    · refine ⟨rest ++ [.exec tx (.panic p), .rollback tx rb], by simp [htr],
        by simp [beginCount, hb], ?_⟩
      intro ev hev t ht
      simp only [List.mem_append, List.mem_cons, List.mem_singleton, List.not_mem_nil,
        or_false] at hev
      rcases hev with hev | rfl | rfl
      · exact htx ev hev t ht
      · simp [eventTx] at ht; exact ht.symm
      · simp [eventTx] at ht; exact ht.symm
    · refine ⟨rest ++ [.exec tx (.ret none), .commit tx none], by simp [htr],
        by simp [beginCount, hb], ?_⟩
      intro ev hev t ht
      simp only [List.mem_append, List.mem_cons, List.mem_singleton, List.not_mem_nil,
        or_false] at hev
      rcases hev with hev | rfl | rfl
      · exact htx ev hev t ht
      · simp [eventTx] at ht; exact ht.symm
      · simp [eventTx] at ht; exact ht.symm
    · refine ⟨rest ++ att ++ chk ++ [.rollback tx rb], by simp [htr], ?_, ?_⟩
      · rcases hatt with rfl | rfl <;> rcases hchk with rfl | rfl <;> simp [beginCount, hb]
      · intro ev hev t ht
        simp only [List.mem_append, List.mem_singleton] at hev
        rcases hev with ((hev | hev) | hev) | hev
        · exact htx ev hev t ht
        · rcases hatt with rfl | rfl
          · simp only [List.mem_singleton] at hev
            subst hev; simp [eventTx] at ht; exact ht.symm
          · simp only [List.mem_cons, List.mem_singleton, List.not_mem_nil, or_false] at hev
            rcases hev with rfl | rfl <;> simp [eventTx] at ht <;> exact ht.symm
        · rcases hchk with rfl | rfl
          · simp at hev
          · simp only [List.mem_singleton] at hev
            subst hev; simp [eventTx] at ht
        · subst hev; simp [eventTx] at ht; exact ht.symm

/-- The part of the body after the attempt goes round again exactly when the
guard holds. -/
theorem afterAttempt_again_iff (drv : Driver) (tx : Tx) (cfg : options)
    (err : Option Err) (tr : List Event) :
    (∃ cfg1 tr1, afterAttempt drv tx cfg err tr = .again cfg1 tr1) ↔
      loopsAgain cfg cfg.retryTimes err = true := by
  cases err with
  | none => simp [afterAttempt_nil, loopsAgain]
  | some e =>
    rcases Option.eq_none_or_eq_some cfg.checkRetryable with hf | ⟨f, hf⟩
    · simp [afterAttempt_noCheck hf, loopsAgain, hf]
    · by_cases hlt : cfg.retryTimes < cfg.maxRetryTimes
      · cases hfe : f e with
        | true => simp [afterAttempt_retry hf hlt hfe, loopsAgain, hf, hlt, hfe]
        | false => simp [afterAttempt_reject hf hlt hfe, loopsAgain, hf, hfe]
      · simp [afterAttempt_max (Nat.le_of_not_lt hlt), loopsAgain, hf, hlt]

theorem isSetter_toFunc {o : OptionCall} (h : o.WellTyped) : IsSetter o.toFunc := by
  cases o with
  | maxRetryTimes times => exact isSetter_MaxRetryTimes h
  | retryDelay delay => exact isSetter_RetryDelay delay
  | isolationLevel level => exact isSetter_IsolationLevel level
  | checkRetryable fn => exact isSetter_CheckRetryable fn

theorem isSetter_map_toFunc {os : List OptionCall} (h : ∀ o ∈ os, o.WellTyped) :
    ∀ o ∈ os.map OptionCall.toFunc, IsSetter o := by
  intro o ho
  obtain ⟨c, hc, rfl⟩ := List.mem_map.1 ho
  exact isSetter_toFunc (h c hc)

/-- Two configurations with the same five fields are the same. -/
theorem options_eq_of_fields {a b : options} (h1 : a.isolation = b.isolation)
    (h2 : a.retryTimes = b.retryTimes) (h3 : a.maxRetryTimes = b.maxRetryTimes)
    (h4 : a.retryDelay = b.retryDelay) (h5 : a.checkRetryable = b.checkRetryable) :
    a = b := by
  cases a; cases b; simp_all

/-- Every classifier call of the loop is a call of the configured classifier,
the run ends with the classifier it was entered with, and with no classifier
the loop makes one pass. -/
theorem retryLoop_checks (drv : Driver) (exec : TxExecFunc) (tx : Tx)
    (fuel : Nat) (cfg : options) (tr : List Event) (r : Run)
    (htr : ∀ e b, Event.check e b ∉ tr)
    (h : retryLoop drv exec tx fuel cfg tr = some r) :
    r.cfg.checkRetryable = cfg.checkRetryable ∧
      (∀ e b, Event.check e b ∈ r.trace → ∃ f, cfg.checkRetryable = some f ∧ b = f e) ∧
      (cfg.checkRetryable = none → execCount r.trace = execCount tr + 1) := by
  refine retryLoop_inv drv exec tx
    (fun c t => c.checkRetryable = cfg.checkRetryable ∧
      (cfg.checkRetryable = none → t = tr) ∧
      ∀ e b, Event.check e b ∈ t → ∃ f, cfg.checkRetryable = some f ∧ b = f e)
    (fun r => r.cfg.checkRetryable = cfg.checkRetryable ∧
      (∀ e b, Event.check e b ∈ r.trace → ∃ f, cfg.checkRetryable = some f ∧ b = f e) ∧
      (cfg.checkRetryable = none → execCount r.trace = execCount tr + 1))
    ?_ ?_ fuel cfg tr r
    ⟨rfl, fun _ => rfl, fun e b hm => absurd hm (htr e b)⟩ h
  · rintro c t c1 t1 ⟨hc, _, hall⟩ hstep
    obtain ⟨e, f, att, hatt, hf, hfe, _, rfl, rfl⟩ := loopBody_again_full hstep
    rw [hc] at hf
    refine ⟨hc, fun hnone => by rw [hnone] at hf; simp at hf, ?_⟩
    intro e1 b1 hm
    rw [sleepIfDelay_eq_append] at hm
    simp only [List.mem_append, List.mem_singleton] at hm
    rcases hm with ((hm | hm) | hm) | hm
    · exact hall e1 b1 hm
    · rcases hatt with rfl | rfl <;> simp at hm
    · simp only [Event.check.injEq] at hm
      obtain ⟨rfl, rfl⟩ := hm
      exact ⟨f, hf, hfe.symm⟩
    · unfold sleepIfDelay at hm
      split at hm <;> simp at hm
  · rintro c t r0 ⟨hc, hsame, hall⟩ hstep
    obtain ⟨hcfg, hform⟩ := loopBody_done_full hstep
    refine ⟨by rw [hcfg, hc], ?_, ?_⟩
    · intro e1 b1 hm
      rcases hform with ⟨p, rb, _, htr0⟩ | ⟨_, htr0⟩ | ⟨e, att, rb, hatt, _, hform⟩
      · rw [htr0] at hm
        simp only [List.mem_append, List.mem_cons, List.mem_singleton, List.not_mem_nil,
          or_false] at hm
        rcases hm with hm | hm | hm
        · exact hall e1 b1 hm
        · simp at hm
        · simp at hm
      · rw [htr0] at hm
        simp only [List.mem_append, List.mem_cons, List.mem_singleton, List.not_mem_nil,
          or_false] at hm
        rcases hm with hm | hm | hm
        · exact hall e1 b1 hm
        · simp at hm
        · simp at hm
      · rcases hform with ⟨_, htr0⟩ | ⟨f, hf, _, hfe, htr0⟩
        · rw [htr0] at hm
          simp only [List.mem_append, List.mem_singleton] at hm
          rcases hm with (hm | hm) | hm
          · exact hall e1 b1 hm
          · rcases hatt with rfl | rfl <;> simp at hm
          · simp at hm
        · rw [htr0] at hm
          simp only [List.mem_append, List.mem_cons, List.mem_singleton, List.not_mem_nil,
            or_false] at hm
          rcases hm with (hm | hm) | hm | hm
          · exact hall e1 b1 hm
          · rcases hatt with rfl | rfl <;> simp at hm
          · simp only [Event.check.injEq] at hm
            obtain ⟨rfl, rfl⟩ := hm
            exact ⟨f, by rw [← hc]; exact hf, hfe.symm⟩
          · simp at hm
    · intro hnone
      have ht := hsame hnone
      subst ht
      unfold execCount
      rcases hform with ⟨p, rb, _, htr0⟩ | ⟨_, htr0⟩ | ⟨e, att, rb, hatt, _, hform⟩
      · rw [htr0]; simp [execResults]
      · rw [htr0]; simp [execResults]
      · rcases hform with ⟨_, htr0⟩ | ⟨f, _, _, _, htr0⟩ <;> rw [htr0] <;>
          rcases hatt with rfl | rfl <;> simp [execResults]

theorem foldl_SetDefaultCheckRetryable (fns : List CheckRetryableFunc) :
    ∀ g : Globals,
      DefaultCheckRetryable (fns.foldl (fun s fn => SetDefaultCheckRetryable fn s) g) =
        fns.getLast?.getD (DefaultCheckRetryable g) := by
  induction fns with
  | nil => intro g; rfl
  | cons fn rest ih =>
    intro g
    rw [List.foldl_cons, ih]
    cases rest with
    | nil => rfl
    | cons fn2 rest2 =>
      rw [List.getLast?_cons_cons, List.getLast?_cons]
      rfl

/-- The loop when the next `n` attempts each end with an error that the
classifier accepts, from the unit of work or from `Commit`, and the
invocation after them panics with `p`: the deferred function rolls back once,
right after that invocation, and the run ends in the panic `p`. -/
theorem retryLoop_failThenPanic (drv : Driver) (exec : TxExecFunc) (tx : Tx)
    (chk : CheckRetryableFunc) (k : Nat) (p : Payload)
    (hfail : ∀ tr, execCount tr < k →
      ∃ e f, chk = some f ∧ f e = true ∧
        (exec tr tx = .ret (some e) ∨
          (exec tr tx = .ret none ∧
            drv.Commit (tr ++ [.exec tx (.ret none)]) tx = some e)))
    (hpanic : ∀ tr, execCount tr = k → exec tr tx = .panic p) :
    ∀ (n fuel : Nat) (cfg : options) (tr : List Event),
      cfg.checkRetryable = chk → cfg.maxRetryTimes < uintModulus →
      execCount tr + n = k → cfg.retryTimes + n ≤ cfg.maxRetryTimes → n < fuel →
      rollbackCount tr = 0 → checkCount tr + n = k →
      ∃ r before, retryLoop drv exec tx fuel cfg tr = some r ∧
        r.result = .panicked p ∧
        r.trace = before ++ [.exec tx (.panic p),
          .rollback tx (drv.Rollback (before ++ [.exec tx (.panic p)]) tx)] ∧
        (∃ more, before = tr ++ more) ∧
        execCount before = k ∧ checkCount before = k ∧ rollbackCount before = 0 := by
  intro n
  induction n with
  | zero =>
    intro fuel cfg tr hf hM hn hrt hfuel hr hc
    obtain ⟨fuel, rfl⟩ : ∃ j, fuel = j + 1 := ⟨fuel - 1, by omega⟩
    have he := hpanic tr (by omega)
    rw [retryLoop_succ, loopBody_panic he]
    exact ⟨_, tr, rfl, rfl, by simp [recoverPanic], ⟨[], by simp⟩, by omega, by omega, hr⟩
  | succ n ih =>
    intro fuel cfg tr hf hM hn hrt hfuel hr hc
    obtain ⟨fuel, rfl⟩ : ∃ j, fuel = j + 1 := ⟨fuel - 1, by omega⟩
    obtain ⟨e, f, hchk, hfe, hcase⟩ := hfail tr (by omega)
    have hf2 : cfg.checkRetryable = some f := by rw [hf, hchk]
    have hmod : (cfg.retryTimes + 1) % uintModulus = cfg.retryTimes + 1 :=
      Nat.mod_eq_of_lt (by omega)
    rcases hcase with he | ⟨he, hcm⟩
    · rw [retryLoop_succ, loopBody_err he, afterAttempt_retry hf2 (by omega) hfe]
      simp only
      obtain ⟨r, before, h1, h2, h3, ⟨more, h4⟩, h5, h6, h7⟩ := ih fuel
        { cfg with retryTimes := (cfg.retryTimes + 1) % uintModulus }
        (sleepIfDelay cfg (tr ++ [.exec tx (.ret (some e))] ++ [.check e true]))
        hf hM
        (by simp [execCount, execResults] at hn ⊢; omega)
        (by simp only [hmod]; omega) (by omega)
        (by simp [rollbackCount, rollbackResults] at hr ⊢; simp [hr])
        (by simp [checkCount, checkArgs] at hc ⊢; omega)
      refine ⟨r, before, h1, h2, h3,
        ⟨[.exec tx (.ret (some e)), .check e true] ++ sleepIfDelay cfg [] ++ more, ?_⟩,
        h5, h6, h7⟩
      rw [h4, sleepIfDelay_eq_append]
      simp
    · rw [retryLoop_succ, loopBody_nil he, hcm, afterAttempt_retry hf2 (by omega) hfe]
      simp only
      obtain ⟨r, before, h1, h2, h3, ⟨more, h4⟩, h5, h6, h7⟩ := ih fuel
        { cfg with retryTimes := (cfg.retryTimes + 1) % uintModulus }
        (sleepIfDelay cfg
          (tr ++ [.exec tx (.ret none), .commit tx (some e)] ++ [.check e true]))
        hf hM
        (by simp [execCount, execResults] at hn ⊢; omega)
        (by simp only [hmod]; omega) (by omega)
        (by simp [rollbackCount, rollbackResults] at hr ⊢; simp [hr])
        (by simp [checkCount, checkArgs] at hc ⊢; omega)
      refine ⟨r, before, h1, h2, h3,
        ⟨[.exec tx (.ret none), .commit tx (some e), .check e true] ++
          sleepIfDelay cfg [] ++ more, ?_⟩, h5, h6, h7⟩
      rw [h4, sleepIfDelay_eq_append]
      simp

/-! ## The claims -/

/-- C1. With `maxRetryTimes = N` and a classifier that accepts every error,
when `BeginTx` succeeds and every invocation of the unit of work returns an
error, `Execute` invokes the unit of work exactly `N + 1` times and returns
the error of the last invocation. -/
theorem c1_always_failing_invoked_N_plus_one (N fuel : Nat) (g : Globals) (drv : Driver)
    (ctx : Context) (db : TxBeginner) (exec : TxExecFunc)
    (opts : List (options → options)) (f : Err → Bool)
    (hopts : ∀ o ∈ opts, IsSetter o)
    (hN : (buildConfig g opts).maxRetryTimes = N)
    (hf : (buildConfig g opts).checkRetryable = some f)
    (hall : ∀ e, f e = true)
    (hbegin : (db.BeginTx ctx (txOptionsOf (buildConfig g opts))).2 = none)
    (hfail : ∀ tr tx, ∃ e, exec tr tx = .ret (some e))
    (hfuel : N < fuel) :
    ∃ r e, Execute fuel g drv ctx db exec opts = some r ∧
      execCount r.trace = N + 1 ∧
      (execResults r.trace).getLast? = some (.ret (some e)) ∧
      r.result = .returned (some e) := by
  obtain ⟨h0, hM⟩ := buildConfig_setters g opts hopts
  obtain ⟨r, e, h1, h2, h3, h4⟩ :=
    retryLoop_allFail drv exec (db.BeginTx ctx (txOptionsOf (buildConfig g opts))).1 f
      hfail hall N fuel (buildConfig g opts) (beginTrace ctx db (buildConfig g opts))
      hf hM (by omega) hfuel
  refine ⟨r, e, ?_, ?_, h3, h4⟩
  · rw [Execute, executeWith_begun hbegin]; exact h1
  · rw [h2]; simp [execCount, beginTrace, execResults]

/-- Witness of C1: the test "Failure with maximum 7 retry times", with a
classifier that accepts every error. -/
theorem c1_always_failing_invoked_N_plus_one_witness :
    ∃ r e, Execute 8 testGlobals mockTx 0 mockDB execAlwaysRetryable
        [MaxRetryTimes 7, CheckRetryable (some fun _ => true)] = some r ∧
      execCount r.trace = 7 + 1 ∧
      (execResults r.trace).getLast? = some (.ret (some e)) ∧
      r.result = .returned (some e) :=
  c1_always_failing_invoked_N_plus_one 7 8 testGlobals mockTx 0 mockDB execAlwaysRetryable
    [MaxRetryTimes 7, CheckRetryable (some fun _ => true)] (fun _ => true)
    (by
      intro o ho
      simp only [List.mem_cons, List.mem_singleton, List.not_mem_nil, or_false] at ho
      rcases ho with rfl | rfl
      · exact isSetter_MaxRetryTimes (by decide)
      · exact isSetter_CheckRetryable _)
    rfl rfl (fun _ => rfl) rfl (fun _ _ => ⟨errRetryable, rfl⟩) (by decide)

/-- C2. When `BeginTx` succeeds and the first invocation of the unit of work
returns an error `e` that is not retryable (no classifier, or the classifier
rejects `e`), `Execute` invokes the unit of work once, does not call `Commit`
and returns `e`, whatever `maxRetryTimes` is. -/
theorem c2_non_retryable_invoked_once (fuel : Nat) (g : Globals) (drv : Driver)
    (ctx : Context) (db : TxBeginner) (exec : TxExecFunc)
    (opts : List (options → options)) (e : Err)
    (hbegin : (db.BeginTx ctx (txOptionsOf (buildConfig g opts))).2 = none)
    (hfirst : exec (beginTrace ctx db (buildConfig g opts))
      (db.BeginTx ctx (txOptionsOf (buildConfig g opts))).1 = .ret (some e))
    (hcls : (buildConfig g opts).checkRetryable = none ∨
      ∃ f, (buildConfig g opts).checkRetryable = some f ∧ f e = false)
    (hfuel : 0 < fuel) :
    ∃ r, Execute fuel g drv ctx db exec opts = some r ∧
      execCount r.trace = 1 ∧ commitCount r.trace = 0 ∧
      r.result = .returned (some e) := by
  obtain ⟨fuel, rfl⟩ : ∃ k, fuel = k + 1 := ⟨fuel - 1, by omega⟩
  rw [Execute, executeWith_begun hbegin, retryLoop_succ, loopBody_err hfirst]
  rcases hcls with hnone | ⟨f, hf, hfe⟩
  · rw [afterAttempt_noCheck hnone]
    exact ⟨_, rfl, by simp [execCount, beginTrace, execResults],
      by simp [commitCount, beginTrace, commitResults], rfl⟩
  · by_cases hlt : (buildConfig g opts).retryTimes < (buildConfig g opts).maxRetryTimes
    · rw [afterAttempt_reject hf hlt hfe]
      exact ⟨_, rfl, by simp [execCount, beginTrace, execResults],
        by simp [commitCount, beginTrace, commitResults], rfl⟩
    · rw [afterAttempt_max (by omega)]
      exact ⟨_, rfl, by simp [execCount, beginTrace, execResults],
        by simp [commitCount, beginTrace, commitResults], rfl⟩

/-- Witness of C2: the test "Failure non-retryable error". -/
theorem c2_non_retryable_invoked_once_witness :
    ∃ r, Execute 1 testGlobals mockTx 0 mockDB execAlwaysSQL [] = some r ∧
      execCount r.trace = 1 ∧ commitCount r.trace = 0 ∧
      r.result = .returned (some errSQL) :=
  c2_non_retryable_invoked_once 1 testGlobals mockTx 0 mockDB execAlwaysSQL [] errSQL
    rfl rfl (Or.inr ⟨isRetryableErr, rfl, rfl⟩) (by decide)

/-- C3. When `BeginTx` returns an error `e`, `Execute` returns `e` and the
only call it has made is that one `BeginTx`: no invocation of the unit of
work, no call of the classifier, no `Commit`, no `Rollback`. -/
theorem c3_begin_failure (fuel : Nat) (g : Globals) (drv : Driver) (ctx : Context)
    (db : TxBeginner) (exec : TxExecFunc) (opts : List (options → options)) (e : Err)
    (hbegin : (db.BeginTx ctx (txOptionsOf (buildConfig g opts))).2 = some e) :
    ∃ r, Execute fuel g drv ctx db exec opts = some r ∧
      r.result = .returned (some e) ∧
      r.trace = [.beginTx ctx (txOptionsOf (buildConfig g opts))
        (db.BeginTx ctx (txOptionsOf (buildConfig g opts))).1 (some e)] ∧
      beginCount r.trace = 1 ∧ execCount r.trace = 0 ∧ checkCount r.trace = 0 ∧
      commitCount r.trace = 0 ∧ rollbackCount r.trace = 0 := by
  refine ⟨{ result := .returned (some e),
            trace := beginTrace ctx db (buildConfig g opts),
            cfg := buildConfig g opts }, ?_, rfl, ?_, ?_, ?_, ?_, ?_, ?_⟩
  · simp [Execute, executeWith, hbegin]
  · simp [beginTrace, hbegin]
  · simp [beginTrace, beginCount]
  · simp [beginTrace, execCount, execResults]
  · simp [beginTrace, checkCount, checkArgs]
  · simp [beginTrace, commitCount, commitResults]
  · simp [beginTrace, rollbackCount, rollbackResults]

/-- Witness of C3: the test "Failure: error on Begin". -/
theorem c3_begin_failure_witness :
    ∃ r, Execute 4 testGlobals mockTx 0 mockDBBeginFails execNil [] = some r ∧
      r.result = .returned (some errSQL) ∧
      r.trace = [.beginTx 0 (txOptionsOf (buildConfig testGlobals []))
        (mockDBBeginFails.BeginTx 0 (txOptionsOf (buildConfig testGlobals []))).1
        (some errSQL)] ∧
      beginCount r.trace = 1 ∧ execCount r.trace = 0 ∧ checkCount r.trace = 0 ∧
      commitCount r.trace = 0 ∧ rollbackCount r.trace = 0 :=
  c3_begin_failure 4 testGlobals mockTx 0 mockDBBeginFails execNil [] errSQL rfl

/-- C4 as stated fails: with the default configuration of the tests, a unit of
work that returns `nil` and a `Commit` that fails with the retryable error,
`Commit` is attempted four times in the one call. -/
theorem c4_commit_attempted_four_times :
    (Execute 4 testGlobals mockTxCommitFails 0 mockDB execNil []).map
        (fun r => (execResults r.trace, commitCount r.trace, r.result)) =
      some ([.ret none, .ret none, .ret none, .ret none], 4,
        .returned (some errRetryable)) := by
  decide

/-- C4 (as amended). When `BeginTx` succeeds, the number of `Commit` attempts
in the whole call equals the number of invocations of the unit of work that
returned `nil`; a `Commit` that returns `nil` ends the call with the result
`nil`; and when the first `Commit` of the call returns `nil` it is the only
`Commit` of the call. -/
theorem c4_commit_once_per_nil_invocation (fuel : Nat) (g : Globals) (drv : Driver)
    (ctx : Context) (db : TxBeginner) (exec : TxExecFunc)
    (opts : List (options → options))
    (hopts : ∀ o ∈ opts, IsSetter o)
    (hbegin : (db.BeginTx ctx (txOptionsOf (buildConfig g opts))).2 = none)
    (hfuel : (buildConfig g opts).maxRetryTimes < fuel) :
    ∃ r, Execute fuel g drv ctx db exec opts = some r ∧
      commitCount r.trace = (execResults r.trace).count (.ret none) ∧
      (none ∈ commitResults r.trace → r.result = .returned none) ∧
      ((commitResults r.trace).head? = some none → commitCount r.trace = 1) := by
  apply Execute_run_inv fuel g drv ctx db exec opts
    (fun _ tr => commitCount tr = (execResults tr).count (.ret none) ∧
      ∀ c ∈ commitResults tr, c ≠ none) _ hopts hbegin hfuel
  · simp [beginTrace, commitCount, commitResults, execResults]
  · intro cfg tr cfg1 tr1 hP h
    obtain ⟨hcount, hsome⟩ := hP
    obtain ⟨e, att, hatt, rfl⟩ := loopBody_again_inv h
    unfold commitCount at hcount ⊢
    rcases hatt with rfl | rfl
    · simpa [commitResults, execResults, checkArgs] using ⟨hcount, hsome⟩
    · simp [commitResults, execResults, hcount]
      intro c hc
      rcases hc with hc | hc
      · exact hsome c hc
      · simp [hc]
  · intro cfg tr r hP h
    obtain ⟨hcount, hsome⟩ := hP
    unfold commitCount at hcount ⊢
    rcases loopBody_done_inv h with ⟨p, rb, hres, htr⟩ | ⟨hres, htr⟩ |
      ⟨e, att, chk, rb, hatt, hchk, hres, htr⟩
    · rw [htr, hres]
      simp only [commitResults_append, execResults_append, commitResults, execResults,
        List.append_nil]
      refine ⟨by simpa using hcount, fun hmem => absurd rfl (hsome none hmem), ?_⟩
      intro hh
      exact absurd hh (head_ne_none_of_forall_ne hsome)
    · rw [htr, hres]
      simp only [commitResults_append, execResults_append, commitResults, execResults]
      refine ⟨by simp [hcount], fun _ => trivial, ?_⟩
      intro hh
      rw [eq_nil_of_head_append hsome hh]
      rfl
    · rw [htr, hres]
      have hchk0 : commitResults chk = [] ∧ execResults chk = [] := by
        rcases hchk with rfl | rfl <;> exact ⟨rfl, rfl⟩
      rcases hatt with rfl | rfl
      · simp only [commitResults_append, execResults_append, commitResults, execResults,
          hchk0.1, hchk0.2, List.append_nil]
        refine ⟨by simp [hcount], fun hmem => absurd rfl (hsome none hmem), ?_⟩
        intro hh
        exact absurd hh (head_ne_none_of_forall_ne hsome)
      · simp only [commitResults_append, execResults_append, commitResults, execResults,
          hchk0.1, hchk0.2, List.append_nil]
        refine ⟨by simp [hcount], ?_, ?_⟩
        · intro hmem
          simp only [List.mem_append, List.mem_singleton] at hmem
          rcases hmem with hmem | hmem
          · exact absurd rfl (hsome none hmem)
          · simp at hmem
        · intro hh
          have := eq_nil_of_head_append hsome hh
          rw [this] at hh
          simp at hh

/-- Witness of C4 as amended: one retry after a failed invocation, then the
unit of work returns `nil` and `Commit` succeeds. -/
theorem c4_commit_once_per_nil_invocation_witness :
    (∃ r, Execute 4 testGlobals mockTx 0 mockDB (execFailFirst 1) [] = some r ∧
      commitCount r.trace = (execResults r.trace).count (.ret none) ∧
      (none ∈ commitResults r.trace → r.result = .returned none) ∧
      ((commitResults r.trace).head? = some none → commitCount r.trace = 1)) ∧
    (Execute 4 testGlobals mockTx 0 mockDB (execFailFirst 1) []).map
        (fun r => (commitResults r.trace, r.result)) = some ([none], .returned none) :=
  ⟨c4_commit_once_per_nil_invocation 4 testGlobals mockTx 0 mockDB (execFailFirst 1) []
    (by intro o ho; cases ho) rfl (by decide), by decide⟩

/-- C5. With `k ≤ N = maxRetryTimes`, when `BeginTx` succeeds, the unit of
work returns an error that the classifier accepts on its first `k`
invocations and `nil` on invocation `k + 1`, and `Commit` then returns `nil`,
`Execute` returns `nil`, invokes the unit of work exactly `k + 1` times, calls
`Commit` exactly once and never calls `Rollback`. -/
theorem c5_retry_then_success (k N fuel : Nat) (g : Globals) (drv : Driver)
    (ctx : Context) (db : TxBeginner) (exec : TxExecFunc)
    (opts : List (options → options)) (f : Err → Bool)
    (hopts : ∀ o ∈ opts, IsSetter o)
    (hN : (buildConfig g opts).maxRetryTimes = N)
    (hf : (buildConfig g opts).checkRetryable = some f)
    (hk : k ≤ N)
    (hbegin : (db.BeginTx ctx (txOptionsOf (buildConfig g opts))).2 = none)
    (hfail : ∀ tr tx, execCount tr < k → ∃ e, exec tr tx = .ret (some e) ∧ f e = true)
    (hok : ∀ tr tx, execCount tr = k → exec tr tx = .ret none)
    (hcommit : ∀ tr tx, execCount tr = k + 1 → drv.Commit tr tx = none)
    (hfuel : k < fuel) :
    ∃ r, Execute fuel g drv ctx db exec opts = some r ∧
      r.result = .returned none ∧ execCount r.trace = k + 1 ∧
      commitCount r.trace = 1 ∧ rollbackCount r.trace = 0 := by
  obtain ⟨h0, hM⟩ := buildConfig_setters g opts hopts
  rw [Execute, executeWith_begun hbegin]
  exact retryLoop_failThenOk drv exec _ f k hfail hok hcommit k fuel (buildConfig g opts)
    (beginTrace ctx db (buildConfig g opts)) hf hM
    (by simp [execCount, beginTrace, execResults]) (by omega) hfuel
    (by simp [commitCount, beginTrace, commitResults])
    (by simp [rollbackCount, beginTrace, rollbackResults])

/-- Witness of C5: the test "Success with retry 3 times" (`k = N = 3`). -/
theorem c5_retry_then_success_witness :
    ∃ r, Execute 4 testGlobals mockTx 0 mockDB (execFailFirst 3) [RetryDelay 200] = some r ∧
      r.result = .returned none ∧ execCount r.trace = 3 + 1 ∧
      commitCount r.trace = 1 ∧ rollbackCount r.trace = 0 :=
  c5_retry_then_success 3 3 4 testGlobals mockTx 0 mockDB (execFailFirst 3) [RetryDelay 200]
    isRetryableErr
    (by intro o ho; simp at ho; subst ho; exact isSetter_RetryDelay 200)
    rfl rfl (by decide) rfl
    (by intro tr tx h; exact ⟨errRetryable, by simp [execFailFirst, h], rfl⟩)
    (by intro tr tx h; simp [execFailFirst, h])
    (by intro tr tx _; rfl)
    (by decide)

/-- C6 as stated fails: in a call with one retry, `BeginTx` is called once and
both invocations of the unit of work receive the handle 7 that it returned. -/
theorem c6_retry_reuses_the_transaction :
    (Execute 4 testGlobals mockTx 0 mockDB (execFailFirst 1) []).map
        (fun r => (beginCount r.trace, execCount r.trace, execTxs r.trace)) =
      some (1, 2, [7, 7]) := by
  decide

/-- C6 (as amended). When `BeginTx` succeeds, `BeginTx` is called once in the
whole call and every invocation of the unit of work, the first one and each
retry, receives the handle that this one call returned: the handle of a
failed attempt is passed to the unit of work again. -/
theorem c6_every_invocation_same_tx (fuel : Nat) (g : Globals) (drv : Driver)
    (ctx : Context) (db : TxBeginner) (exec : TxExecFunc)
    (opts : List (options → options))
    (hopts : ∀ o ∈ opts, IsSetter o)
    (hbegin : (db.BeginTx ctx (txOptionsOf (buildConfig g opts))).2 = none)
    (hfuel : (buildConfig g opts).maxRetryTimes < fuel) :
    ∃ r, Execute fuel g drv ctx db exec opts = some r ∧
      beginCount r.trace = 1 ∧ 1 ≤ execCount r.trace ∧
      execTxs r.trace = List.replicate (execCount r.trace)
        (db.BeginTx ctx (txOptionsOf (buildConfig g opts))).1 := by
  apply Execute_run_inv fuel g drv ctx db exec opts
    (fun _ tr => beginCount tr = 1 ∧
      execTxs tr = List.replicate (execCount tr)
        (db.BeginTx ctx (txOptionsOf (buildConfig g opts))).1) _ hopts hbegin hfuel
  · simp [beginTrace, beginCount, execTxs, execCount, execResults]
  · intro cfg tr cfg1 tr1 hP h
    obtain ⟨hb, ht⟩ := hP
    obtain ⟨e, att, hatt, rfl⟩ := loopBody_again_inv h
    unfold execCount at ht ⊢
    rcases hatt with rfl | rfl <;>
      simp [beginCount, execTxs, execResults, hb, ht, List.replicate_succ']
  · intro cfg tr r hP h
    obtain ⟨hb, ht⟩ := hP
    unfold execCount at ht ⊢
    rcases loopBody_done_inv h with ⟨p, rb, _, htr⟩ | ⟨_, htr⟩ |
      ⟨e, att, chk, rb, hatt, hchk, _, htr⟩
    · rw [htr]
      simp [beginCount, execTxs, execResults, hb, ht, List.replicate_succ']
    · rw [htr]
      simp [beginCount, execTxs, execResults, hb, ht, List.replicate_succ']
    · rw [htr]
      rcases hatt with rfl | rfl <;> rcases hchk with rfl | rfl <;>
        simp [beginCount, execTxs, execResults, hb, ht, List.replicate_succ']

/-- Witness of C6 as amended: the test "Success with retry 3 times". -/
theorem c6_every_invocation_same_tx_witness :
    (∃ r, Execute 4 testGlobals mockTx 0 mockDB (execFailFirst 3) [RetryDelay 200] = some r ∧
      beginCount r.trace = 1 ∧ 1 ≤ execCount r.trace ∧
      execTxs r.trace = List.replicate (execCount r.trace)
        (mockDB.BeginTx 0
          (txOptionsOf (buildConfig testGlobals [RetryDelay 200]))).1) ∧
    (Execute 4 testGlobals mockTx 0 mockDB (execFailFirst 3) [RetryDelay 200]).map
        (fun r => execTxs r.trace) = some [7, 7, 7, 7] :=
  ⟨c6_every_invocation_same_tx 4 testGlobals mockTx 0 mockDB (execFailFirst 3)
    [RetryDelay 200]
    (by intro o ho; simp at ho; subst ho; exact isSetter_RetryDelay 200)
    rfl (by decide), by decide⟩

/-- C7. The value that `Execute` returns does not depend on what `Rollback`
returns: a run with any other `Rollback` returns the same value, and a
returned value is the last value that `BeginTx`, the unit of work or `Commit`
assigned to `err`, so an error of `Rollback` is never what the caller sees. -/
theorem c7_rollback_result_is_dropped (fuel : Nat) (g : Globals) (drv : Driver)
    (ctx : Context) (db : TxBeginner) (exec : TxExecFunc)
    (opts : List (options → options)) (rollback2 : List Event → Tx → Option Err)
    (hopts : ∀ o ∈ opts, IsSetter o)
    (hfuel : (buildConfig g opts).maxRetryTimes < fuel) :
    ∃ r r2, Execute fuel g drv ctx db exec opts = some r ∧
      Execute fuel g { Commit := drv.Commit, Rollback := rollback2 } ctx db exec opts =
        some r2 ∧
      r2.result = r.result ∧
      ∀ err, r.result = .returned err → errAfter none r.trace = err := by
  obtain ⟨_, hM⟩ := buildConfig_setters g opts hopts
  rcases Option.eq_none_or_eq_some (db.BeginTx ctx (txOptionsOf (buildConfig g opts))).2
    with hbegin | ⟨e, hbegin⟩
  · obtain ⟨r, hr⟩ := retryLoop_returns drv exec
      (db.BeginTx ctx (txOptionsOf (buildConfig g opts))).1 fuel (buildConfig g opts)
      (beginTrace ctx db (buildConfig g opts)) hM (by omega)
    obtain ⟨r2, hr2, hres⟩ := retryLoop_rollback_irrelevant drv
      { Commit := drv.Commit, Rollback := rollback2 } exec _ rfl fuel _ _ r hr
    refine ⟨r, r2, ?_, ?_, hres, ?_⟩
    · rw [Execute, executeWith_begun hbegin]; exact hr
    · rw [Execute, executeWith_begun hbegin]; exact hr2
    · exact retryLoop_result_errAfter drv exec _ fuel _ _ r hr
  · rw [Execute, Execute, executeWith_beginFailed hbegin, executeWith_beginFailed hbegin]
    refine ⟨_, _, rfl, rfl, rfl, ?_⟩
    · intro err herr
      simp only [Outcome.returned.injEq] at herr
      subst herr
      simp [beginTrace, errAfter, hbegin]

/-- Witness of C7: `Commit` fails with `errRetryable` until the retries are
used up; the run whose `Rollback` fails with `errSQL` and the run whose
`Rollback` returns `nil` both return `errRetryable`. -/
theorem c7_rollback_result_is_dropped_witness :
    (∃ r r2, Execute 4 testGlobals mockTxCommitFails 0 mockDB execNil [] = some r ∧
      Execute 4 testGlobals
        { Commit := mockTxCommitFails.Commit, Rollback := fun _ _ => none } 0 mockDB
        execNil [] = some r2 ∧
      r2.result = r.result ∧
      ∀ err, r.result = .returned err → errAfter none r.trace = err) ∧
    (Execute 4 testGlobals mockTxCommitFails 0 mockDB execNil []).map
        (fun r => (r.result, rollbackResults r.trace)) =
      some (.returned (some errRetryable), [some errSQL]) :=
  ⟨c7_rollback_result_is_dropped 4 testGlobals mockTxCommitFails 0 mockDB execNil []
    (fun _ _ => none) (by intro o ho; cases ho) (by decide), by decide⟩

/-- C8. When `BeginTx` succeeds and the unit of work panics with `p` on its
invocation number `k + 1`, the first one (`k = 0`) or a retry (the `k`
attempts before it each ended with an error, of the unit of work or of
`Commit`, that the classifier accepted, `k ≤ maxRetryTimes`): `Execute` panics
with `p` instead of returning; `Rollback` is called exactly once in the run,
directly after that invocation, on the same handle, and it is the last call,
so the panic is followed by no invocation, no `Commit` and no classifier
call. -/
theorem c8_panic_rolls_back_and_propagates (k fuel : Nat) (g : Globals)
    (drv : Driver) (ctx : Context) (db : TxBeginner) (exec : TxExecFunc)
    (opts : List (options → options)) (p : Payload)
    (hopts : ∀ o ∈ opts, IsSetter o)
    (hbegin : (db.BeginTx ctx (txOptionsOf (buildConfig g opts))).2 = none)
    (hk : k ≤ (buildConfig g opts).maxRetryTimes)
    (hfail : ∀ tr, execCount tr < k →
      ∃ e f, (buildConfig g opts).checkRetryable = some f ∧ f e = true ∧
        (exec tr (db.BeginTx ctx (txOptionsOf (buildConfig g opts))).1 = .ret (some e) ∨
          (exec tr (db.BeginTx ctx (txOptionsOf (buildConfig g opts))).1 = .ret none ∧
            drv.Commit
                (tr ++ [.exec (db.BeginTx ctx (txOptionsOf (buildConfig g opts))).1
                  (.ret none)])
                (db.BeginTx ctx (txOptionsOf (buildConfig g opts))).1 = some e)))
    (hpanic : ∀ tr, execCount tr = k →
      exec tr (db.BeginTx ctx (txOptionsOf (buildConfig g opts))).1 = .panic p)
    (hfuel : k < fuel) :
    ∃ r before, Execute fuel g drv ctx db exec opts = some r ∧
      r.result = .panicked p ∧
      r.trace = before ++
        [.exec (db.BeginTx ctx (txOptionsOf (buildConfig g opts))).1 (.panic p),
          .rollback (db.BeginTx ctx (txOptionsOf (buildConfig g opts))).1
            (drv.Rollback
              (before ++
                [.exec (db.BeginTx ctx (txOptionsOf (buildConfig g opts))).1 (.panic p)])
              (db.BeginTx ctx (txOptionsOf (buildConfig g opts))).1)] ∧
      execCount before = k ∧ checkCount before = k ∧ rollbackCount before = 0 ∧
      execCount r.trace = k + 1 ∧ checkCount r.trace = k ∧ rollbackCount r.trace = 1 := by
  obtain ⟨h0, hM⟩ := buildConfig_setters g opts hopts
  obtain ⟨r, before, h1, h2, h3, _, h5, h6, h7⟩ :=
    retryLoop_failThenPanic drv exec (db.BeginTx ctx (txOptionsOf (buildConfig g opts))).1
      (buildConfig g opts).checkRetryable k p hfail hpanic k fuel (buildConfig g opts)
      (beginTrace ctx db (buildConfig g opts)) rfl hM
      (by simp [execCount, beginTrace, execResults]) (by omega) hfuel
      (by simp [rollbackCount, beginTrace, rollbackResults])
      (by simp [checkCount, beginTrace, checkArgs])
  refine ⟨r, before, ?_, h2, h3, h5, h6, h7, ?_, ?_, ?_⟩
  · rw [Execute, executeWith_begun hbegin]; exact h1
  · rw [h3]; unfold execCount at h5 ⊢; simp [execResults, h5]
  · rw [h3]; unfold checkCount at h6 ⊢; simp [checkArgs, h6]
  · rw [h3]; unfold rollbackCount at h7 ⊢
    simp only [rollbackResults_append, List.length_append, h7]
    rfl

/-- Witness of C8: the test "Failure: panic on execution func", where the
first invocation panics with `errSQL`; and a unit of work that fails once with
a retryable error and panics with the payload 9 on the retry. -/
theorem c8_panic_rolls_back_and_propagates_witness :
    (∃ r before, Execute 1 testGlobals mockTx 0 mockDB execPanic [] = some r ∧
      r.result = .panicked errSQL ∧
      r.trace = before ++
        [.exec (mockDB.BeginTx 0 (txOptionsOf (buildConfig testGlobals []))).1
            (.panic errSQL),
          .rollback (mockDB.BeginTx 0 (txOptionsOf (buildConfig testGlobals []))).1
            (mockTx.Rollback
              (before ++
                [.exec (mockDB.BeginTx 0 (txOptionsOf (buildConfig testGlobals []))).1
                  (.panic errSQL)])
              (mockDB.BeginTx 0 (txOptionsOf (buildConfig testGlobals []))).1)] ∧
      execCount before = 0 ∧ checkCount before = 0 ∧ rollbackCount before = 0 ∧
      execCount r.trace = 0 + 1 ∧ checkCount r.trace = 0 ∧ rollbackCount r.trace = 1) ∧
    (∃ r before, Execute 4 testGlobals mockTx 0 mockDB execFailThenPanic [] = some r ∧
      r.result = .panicked 9 ∧
      r.trace = before ++
        [.exec (mockDB.BeginTx 0 (txOptionsOf (buildConfig testGlobals []))).1 (.panic 9),
          .rollback (mockDB.BeginTx 0 (txOptionsOf (buildConfig testGlobals []))).1
            (mockTx.Rollback
              (before ++
                [.exec (mockDB.BeginTx 0 (txOptionsOf (buildConfig testGlobals []))).1
                  (.panic 9)])
              (mockDB.BeginTx 0 (txOptionsOf (buildConfig testGlobals []))).1)] ∧
      execCount before = 1 ∧ checkCount before = 1 ∧ rollbackCount before = 0 ∧
      execCount r.trace = 1 + 1 ∧ checkCount r.trace = 1 ∧ rollbackCount r.trace = 1) ∧
    (Execute 1 testGlobals mockTx 0 mockDB execPanic []).map
        (fun r => (r.result, r.trace)) =
      some (.panicked errSQL,
        [.beginTx 0 { Isolation := 0, ReadOnly := false } 7 none,
          .exec 7 (.panic errSQL), .rollback 7 none]) ∧
    (Execute 4 testGlobals mockTx 0 mockDB execFailThenPanic []).map
        (fun r => (r.result, r.trace)) =
      some (.panicked 9,
        [.beginTx 0 { Isolation := 0, ReadOnly := false } 7 none,
          .exec 7 (.ret (some errRetryable)), .check errRetryable true,
          .exec 7 (.panic 9), .rollback 7 none]) :=
  ⟨c8_panic_rolls_back_and_propagates 0 1 testGlobals mockTx 0 mockDB execPanic [] errSQL
      (by intro o ho; cases ho) rfl (by decide)
      (by intro tr h; omega) (by intro tr _; rfl) (by decide),
    c8_panic_rolls_back_and_propagates 1 4 testGlobals mockTx 0 mockDB execFailThenPanic [] 9
      (by intro o ho; cases ho) rfl (by decide)
      (by
        intro tr h
        exact ⟨errRetryable, isRetryableErr, rfl, rfl,
          Or.inl (by simp [execFailThenPanic, h])⟩)
      (by intro tr h; simp [execFailThenPanic, h]) (by decide),
    by decide, by decide⟩

/-- C9. In the same state of the loop (same configuration, same retry
counter), an attempt whose unit of work returns `nil` and whose `Commit`
returns the error `e` is decided as an attempt whose unit of work returns
`e`: both go round again, with the counter one higher and the same calls
after the attempt, when the classifier is set, accepts `e` and the counter is
below `maxRetryTimes`; otherwise both call `Rollback` once, as the last call,
and return `e`. -/
theorem c9_commit_error_decided_as_exec_error (drv : Driver) (exec1 exec2 : TxExecFunc)
    (tx : Tx) (cfg : options) (tr : List Event) (e : Err)
    (hnil : exec1 tr tx = .ret none)
    (hcommit : drv.Commit (tr ++ [.exec tx (.ret none)]) tx = some e)
    (herr : exec2 tr tx = .ret (some e)) :
    (((∃ f, cfg.checkRetryable = some f ∧ f e = true) ∧
        cfg.retryTimes < cfg.maxRetryTimes) →
      ∃ more,
        loopBody drv exec1 tx cfg tr =
          .again { cfg with retryTimes := (cfg.retryTimes + 1) % uintModulus }
            (tr ++ [.exec tx (.ret none), .commit tx (some e)] ++ more) ∧
        loopBody drv exec2 tx cfg tr =
          .again { cfg with retryTimes := (cfg.retryTimes + 1) % uintModulus }
            (tr ++ [.exec tx (.ret (some e))] ++ more) ∧
        rollbackCount more = 0) ∧
    (¬ ((∃ f, cfg.checkRetryable = some f ∧ f e = true) ∧
        cfg.retryTimes < cfg.maxRetryTimes) →
      ∃ r1 r2 chk rb1 rb2,
        loopBody drv exec1 tx cfg tr = .done r1 ∧
        loopBody drv exec2 tx cfg tr = .done r2 ∧
        r1.result = .returned (some e) ∧ r2.result = .returned (some e) ∧
        r1.trace = tr ++ [.exec tx (.ret none), .commit tx (some e)] ++ chk ++
          [.rollback tx rb1] ∧
        r2.trace = tr ++ [.exec tx (.ret (some e))] ++ chk ++ [.rollback tx rb2] ∧
        rollbackCount chk = 0) := by
  rw [loopBody_nil hnil, hcommit, loopBody_err herr]
  constructor
  · rintro ⟨⟨f, hf, hfe⟩, hlt⟩
    refine ⟨[.check e true] ++ sleepIfDelay cfg [], ?_, ?_, ?_⟩
    · rw [afterAttempt_retry hf hlt hfe, sleepIfDelay_eq_append]
      simp
    · rw [afterAttempt_retry hf hlt hfe, sleepIfDelay_eq_append]
      simp
    · simp [rollbackCount, rollbackResults]
  · intro hno
    rcases Option.eq_none_or_eq_some cfg.checkRetryable with hf | ⟨f, hf⟩
    · rw [afterAttempt_noCheck hf, afterAttempt_noCheck hf]
      exact ⟨_, _, [], _, _, rfl, rfl, rfl, rfl, by simp; rfl, by simp; rfl, rfl⟩
    · by_cases hlt : cfg.retryTimes < cfg.maxRetryTimes
      · have hfe : f e = false := by
          cases h : f e with
          | false => rfl
          | true => exact absurd ⟨⟨f, hf, h⟩, hlt⟩ hno
        rw [afterAttempt_reject hf hlt hfe, afterAttempt_reject hf hlt hfe]
        exact ⟨_, _, [.check e false], _, _, rfl, rfl, rfl, rfl, by simp; rfl, by simp; rfl, rfl⟩
      · rw [afterAttempt_max (Nat.le_of_not_lt hlt), afterAttempt_max (Nat.le_of_not_lt hlt)]
        exact ⟨_, _, [], _, _, rfl, rfl, rfl, rfl, by simp; rfl, by simp; rfl, rfl⟩

/-- Witness of C9: in the default configuration of the tests, a `Commit` that
fails with `errRetryable` and a unit of work that fails with `errRetryable`. -/
theorem c9_commit_error_decided_as_exec_error_witness :
    (((∃ f, (defaultOptions testGlobals).checkRetryable = some f ∧
          f errRetryable = true) ∧
        (defaultOptions testGlobals).retryTimes < (defaultOptions testGlobals).maxRetryTimes) →
      ∃ more,
        loopBody mockTxCommitFails execNil 7 (defaultOptions testGlobals) [] =
          .again { defaultOptions testGlobals with
              retryTimes := ((defaultOptions testGlobals).retryTimes + 1) % uintModulus }
            ([] ++ [.exec 7 (.ret none), .commit 7 (some errRetryable)] ++ more) ∧
        loopBody mockTxCommitFails execAlwaysRetryable 7 (defaultOptions testGlobals) [] =
          .again { defaultOptions testGlobals with
              retryTimes := ((defaultOptions testGlobals).retryTimes + 1) % uintModulus }
            ([] ++ [.exec 7 (.ret (some errRetryable))] ++ more) ∧
        rollbackCount more = 0) ∧
    (¬ ((∃ f, (defaultOptions testGlobals).checkRetryable = some f ∧
          f errRetryable = true) ∧
        (defaultOptions testGlobals).retryTimes < (defaultOptions testGlobals).maxRetryTimes) →
      ∃ r1 r2 chk rb1 rb2,
        loopBody mockTxCommitFails execNil 7 (defaultOptions testGlobals) [] = .done r1 ∧
        loopBody mockTxCommitFails execAlwaysRetryable 7 (defaultOptions testGlobals) [] =
          .done r2 ∧
        r1.result = .returned (some errRetryable) ∧
        r2.result = .returned (some errRetryable) ∧
        r1.trace = [] ++ [.exec 7 (.ret none), .commit 7 (some errRetryable)] ++ chk ++
          [.rollback 7 rb1] ∧
        r2.trace = [] ++ [.exec 7 (.ret (some errRetryable))] ++ chk ++ [.rollback 7 rb2] ∧
        rollbackCount chk = 0) :=
  c9_commit_error_decided_as_exec_error mockTxCommitFails execNil execAlwaysRetryable 7
    (defaultOptions testGlobals) [] errRetryable rfl rfl rfl

/-- C10. With no options, the configuration of `Execute` is the default one:
isolation `sql.LevelDefault`, retry counter 0, `maxRetryTimes` 3, `retryDelay`
0, and the classifier held by the package variable at the call, which is `nil`
before any call of `SetDefaultCheckRetryable` and the function last set
after. -/
theorem c10_default_configuration (fuel : Nat) (g : Globals) (drv : Driver)
    (ctx : Context) (db : TxBeginner) (exec : TxExecFunc) (fn : CheckRetryableFunc) :
    buildConfig g [] =
        { isolation := sql.LevelDefault
          retryTimes := 0
          maxRetryTimes := 3
          retryDelay := 0
          checkRetryable := DefaultCheckRetryable g } ∧
      Execute fuel g drv ctx db exec [] =
        executeWith fuel drv ctx db exec
          { isolation := sql.LevelDefault
            retryTimes := 0
            maxRetryTimes := 3
            retryDelay := 0
            checkRetryable := DefaultCheckRetryable g } ∧
      DefaultCheckRetryable Globals.start = none ∧
      DefaultCheckRetryable (SetDefaultCheckRetryable fn g) = fn :=
  ⟨rfl, rfl, rfl, rfl⟩

/-- C11. For every list of options applied in order to the default
configuration, each of the four fields ends with the argument of the last
option of the list for that field, or with its default when the list has
none, and the retry counter stays 0; each setter changes its own field only;
and a setter applied twice, with `v1` then `v2`, gives what it gives applied
once with `v2`. -/
theorem c11_last_option_wins (g : Globals) (os : List OptionCall) (c : options)
    (n1 n2 : Nat) (d1 d2 : time.Duration) (l1 l2 : sql.IsolationLevel)
    (f1 f2 : CheckRetryableFunc) :
    ((buildConfig g (os.map OptionCall.toFunc)).maxRetryTimes =
        (lastMaxRetryTimes os).getD 3 ∧
      (buildConfig g (os.map OptionCall.toFunc)).retryDelay =
        (lastRetryDelay os).getD 0 ∧
      (buildConfig g (os.map OptionCall.toFunc)).isolation =
        (lastIsolationLevel os).getD sql.LevelDefault ∧
      (buildConfig g (os.map OptionCall.toFunc)).checkRetryable =
        (lastCheckRetryable os).getD (DefaultCheckRetryable g) ∧
      (buildConfig g (os.map OptionCall.toFunc)).retryTimes = 0) ∧
    ((MaxRetryTimes n1 c).maxRetryTimes = n1 ∧
      (MaxRetryTimes n1 c).retryTimes = c.retryTimes ∧
      (MaxRetryTimes n1 c).retryDelay = c.retryDelay ∧
      (MaxRetryTimes n1 c).isolation = c.isolation ∧
      (MaxRetryTimes n1 c).checkRetryable = c.checkRetryable) ∧
    ((RetryDelay d1 c).retryDelay = d1 ∧
      (RetryDelay d1 c).retryTimes = c.retryTimes ∧
      (RetryDelay d1 c).maxRetryTimes = c.maxRetryTimes ∧
      (RetryDelay d1 c).isolation = c.isolation ∧
      (RetryDelay d1 c).checkRetryable = c.checkRetryable) ∧
    ((IsolationLevel l1 c).isolation = l1 ∧
      (IsolationLevel l1 c).retryTimes = c.retryTimes ∧
      (IsolationLevel l1 c).maxRetryTimes = c.maxRetryTimes ∧
      (IsolationLevel l1 c).retryDelay = c.retryDelay ∧
      (IsolationLevel l1 c).checkRetryable = c.checkRetryable) ∧
    ((CheckRetryable f1 c).checkRetryable = f1 ∧
      (CheckRetryable f1 c).retryTimes = c.retryTimes ∧
      (CheckRetryable f1 c).maxRetryTimes = c.maxRetryTimes ∧
      (CheckRetryable f1 c).retryDelay = c.retryDelay ∧
      (CheckRetryable f1 c).isolation = c.isolation) ∧
    (MaxRetryTimes n2 (MaxRetryTimes n1 c) = MaxRetryTimes n2 c ∧
      RetryDelay d2 (RetryDelay d1 c) = RetryDelay d2 c ∧
      IsolationLevel l2 (IsolationLevel l1 c) = IsolationLevel l2 c ∧
      CheckRetryable f2 (CheckRetryable f1 c) = CheckRetryable f2 c) := by
  refine ⟨buildConfig_fields g os, ?_, ?_, ?_, ?_, ?_⟩
  · exact ⟨rfl, rfl, rfl, rfl, rfl⟩
  · exact ⟨rfl, rfl, rfl, rfl, rfl⟩
  · exact ⟨rfl, rfl, rfl, rfl, rfl⟩
  · exact ⟨rfl, rfl, rfl, rfl, rfl⟩
  · exact ⟨rfl, rfl, rfl, rfl⟩

/-- C12. In every state in which the loop body of `Execute` is entered, and
in the configuration the call ends with: the retry counter is at most
`maxRetryTimes`; it is 0 at the first entry and one more at each next entry,
so it is the number of invocations of the unit of work made before the entry,
which is the number made so far minus one as soon as the pass has invoked the
unit of work; an increment allowed by the guard does not wrap;
`maxRetryTimes`, `retryDelay`, `isolation` and the classifier are those the
loop was entered with. -/
theorem c12_retry_counter_invariant (fuel : Nat) (g : Globals) (drv : Driver)
    (ctx : Context) (db : TxBeginner) (exec : TxExecFunc)
    (opts : List (options → options))
    (hopts : ∀ o ∈ opts, IsSetter o)
    (hbegin : (db.BeginTx ctx (txOptionsOf (buildConfig g opts))).2 = none)
    (hfuel : (buildConfig g opts).maxRetryTimes < fuel) :
    ∃ r, Execute fuel g drv ctx db exec opts = some r ∧
      (loopStates drv exec (db.BeginTx ctx (txOptionsOf (buildConfig g opts))).1 fuel
          (buildConfig g opts) (beginTrace ctx db (buildConfig g opts))).map
          (fun s => s.1.retryTimes) =
        List.range (execCount r.trace) ∧
      (∀ s ∈ loopStates drv exec (db.BeginTx ctx (txOptionsOf (buildConfig g opts))).1 fuel
          (buildConfig g opts) (beginTrace ctx db (buildConfig g opts)),
        s.1.retryTimes ≤ s.1.maxRetryTimes ∧
        s.1.retryTimes = execCount s.2 ∧
        (∀ out, s.1.retryTimes =
          execCount (s.2 ++
            [.exec (db.BeginTx ctx (txOptionsOf (buildConfig g opts))).1 out]) - 1) ∧
        (s.1.retryTimes < s.1.maxRetryTimes →
          (s.1.retryTimes + 1) % uintModulus = s.1.retryTimes + 1) ∧
        s.1.maxRetryTimes = (buildConfig g opts).maxRetryTimes ∧
        s.1.retryDelay = (buildConfig g opts).retryDelay ∧
        s.1.isolation = (buildConfig g opts).isolation ∧
        s.1.checkRetryable = (buildConfig g opts).checkRetryable) ∧
      r.cfg.retryTimes ≤ r.cfg.maxRetryTimes ∧
      r.cfg.retryTimes + 1 = execCount r.trace ∧
      r.cfg.maxRetryTimes = (buildConfig g opts).maxRetryTimes ∧
      r.cfg.retryDelay = (buildConfig g opts).retryDelay ∧
      r.cfg.isolation = (buildConfig g opts).isolation ∧
      r.cfg.checkRetryable = (buildConfig g opts).checkRetryable := by
  obtain ⟨h0, hM⟩ := buildConfig_setters g opts hopts
  obtain ⟨r, hr⟩ := retryLoop_returns drv exec
    (db.BeginTx ctx (txOptionsOf (buildConfig g opts))).1 fuel (buildConfig g opts)
    (beginTrace ctx db (buildConfig g opts)) hM (by omega)
  have hinv := loopStates_inv drv exec (db.BeginTx ctx (txOptionsOf (buildConfig g opts))).1
    (fun cfg tr => cfg.retryTimes ≤ cfg.maxRetryTimes ∧ cfg.retryTimes = execCount tr ∧
      cfg.maxRetryTimes = (buildConfig g opts).maxRetryTimes ∧
      cfg.retryDelay = (buildConfig g opts).retryDelay ∧
      cfg.isolation = (buildConfig g opts).isolation ∧
      cfg.checkRetryable = (buildConfig g opts).checkRetryable)
    (by
      intro cfg tr cfg1 tr1 hP h
      obtain ⟨hle, hc, hmax, hd, hi, hf⟩ := hP
      obtain ⟨e, f, att, hatt, _, _, hlt, rfl, rfl⟩ := loopBody_again_full h
      have hmod : (cfg.retryTimes + 1) % uintModulus = cfg.retryTimes + 1 :=
        Nat.mod_eq_of_lt (by omega)
      refine ⟨by simp only [hmod]; omega, ?_, hmax, hd, hi, hf⟩
      show (cfg.retryTimes + 1) % uintModulus = _
      rw [hmod, hc]
      unfold execCount
      rcases hatt with rfl | rfl <;> simp [execResults])
    fuel (buildConfig g opts) (beginTrace ctx db (buildConfig g opts))
    ⟨by omega, by simp [h0, beginTrace, execCount, execResults], rfl, rfl, rfl, rfl⟩
  obtain ⟨hcount, trLast, hlast, hfin⟩ := loopStates_run drv exec _ fuel _ _ r hr
  have hcount2 : execCount r.trace =
      (loopStates drv exec (db.BeginTx ctx (txOptionsOf (buildConfig g opts))).1 fuel
        (buildConfig g opts) (beginTrace ctx db (buildConfig g opts))).length := by
    rw [hcount]; simp [beginTrace, execCount, execResults]
  have hmem := List.mem_of_getLast?_eq_some hlast
  obtain ⟨hle, hc, hmax, hd, hi, hf⟩ :
      r.cfg.retryTimes ≤ r.cfg.maxRetryTimes ∧ r.cfg.retryTimes = execCount trLast ∧
      r.cfg.maxRetryTimes = (buildConfig g opts).maxRetryTimes ∧
      r.cfg.retryDelay = (buildConfig g opts).retryDelay ∧
      r.cfg.isolation = (buildConfig g opts).isolation ∧
      r.cfg.checkRetryable = (buildConfig g opts).checkRetryable := hinv _ hmem
  have hidx := loopStates_counter drv exec
    (db.BeginTx ctx (txOptionsOf (buildConfig g opts))).1 fuel (buildConfig g opts)
    (beginTrace ctx db (buildConfig g opts)) hM
  refine ⟨r, ?_, ?_, ?_, hle, ?_, hmax, hd, hi, hf⟩
  · rw [Execute, executeWith_begun hbegin]; exact hr
  · rw [hidx, h0, hcount2, List.range_eq_range']
  · intro s hs
    obtain ⟨h1, h2, h3, h4, h5, h6⟩ := hinv s hs
    refine ⟨h1, h2, ?_, fun hlt => Nat.mod_eq_of_lt (by omega), h3, h4, h5, h6⟩
    intro out
    rw [h2]
    simp [execCount, execResults]
  · rw [hfin]; omega

/-- Witness of C12: the test "Success with retry 3 times": the body is
entered with the counter at 0, 1, 2 and 3. -/
theorem c12_retry_counter_invariant_witness :
    (loopStates mockTx (execFailFirst 3) 7 4 (buildConfig testGlobals [RetryDelay 200])
        (beginTrace 0 mockDB (buildConfig testGlobals [RetryDelay 200]))).map
        (fun s => (s.1.retryTimes, s.1.maxRetryTimes, s.1.retryDelay, execCount s.2)) =
      [(0, 3, 200, 0), (1, 3, 200, 1), (2, 3, 200, 2), (3, 3, 200, 3)] ∧
    ∃ r, Execute 4 testGlobals mockTx 0 mockDB (execFailFirst 3) [RetryDelay 200] = some r ∧
      (loopStates mockTx (execFailFirst 3)
          (mockDB.BeginTx 0 (txOptionsOf (buildConfig testGlobals [RetryDelay 200]))).1 4
          (buildConfig testGlobals [RetryDelay 200])
          (beginTrace 0 mockDB (buildConfig testGlobals [RetryDelay 200]))).map
          (fun s => s.1.retryTimes) =
        List.range (execCount r.trace) ∧
      (∀ s ∈ loopStates mockTx (execFailFirst 3)
          (mockDB.BeginTx 0 (txOptionsOf (buildConfig testGlobals [RetryDelay 200]))).1 4
          (buildConfig testGlobals [RetryDelay 200])
          (beginTrace 0 mockDB (buildConfig testGlobals [RetryDelay 200])),
        s.1.retryTimes ≤ s.1.maxRetryTimes ∧
        s.1.retryTimes = execCount s.2 ∧
        (∀ out, s.1.retryTimes =
          execCount (s.2 ++
            [.exec (mockDB.BeginTx 0
              (txOptionsOf (buildConfig testGlobals [RetryDelay 200]))).1 out]) - 1) ∧
        (s.1.retryTimes < s.1.maxRetryTimes →
          (s.1.retryTimes + 1) % uintModulus = s.1.retryTimes + 1) ∧
        s.1.maxRetryTimes = (buildConfig testGlobals [RetryDelay 200]).maxRetryTimes ∧
        s.1.retryDelay = (buildConfig testGlobals [RetryDelay 200]).retryDelay ∧
        s.1.isolation = (buildConfig testGlobals [RetryDelay 200]).isolation ∧
        s.1.checkRetryable = (buildConfig testGlobals [RetryDelay 200]).checkRetryable) ∧
      r.cfg.retryTimes ≤ r.cfg.maxRetryTimes ∧
      r.cfg.retryTimes + 1 = execCount r.trace ∧
      r.cfg.maxRetryTimes = (buildConfig testGlobals [RetryDelay 200]).maxRetryTimes ∧
      r.cfg.retryDelay = (buildConfig testGlobals [RetryDelay 200]).retryDelay ∧
      r.cfg.isolation = (buildConfig testGlobals [RetryDelay 200]).isolation ∧
      r.cfg.checkRetryable = (buildConfig testGlobals [RetryDelay 200]).checkRetryable :=
  ⟨by decide,
    c12_retry_counter_invariant 4 testGlobals mockTx 0 mockDB (execFailFirst 3)
      [RetryDelay 200]
      (by intro o ho; simp at ho; subst ho; exact isSetter_RetryDelay 200)
      rfl (by decide)⟩

/-- C13. `DefaultCheckRetryable` returns the function last passed to
`SetDefaultCheckRetryable`, `nil` before any call.  A call of `Execute` whose
options hold no `CheckRetryable` classifies with that default; a call whose
last `CheckRetryable` option is `fn` classifies with `fn` only, whatever the
default is, and with `fn = nil` nothing is retried and the classifier is not
called.  The call leaves the package variable as it was. -/
theorem c13_default_classifier_and_override (fuel : Nat) (g : Globals) (drv : Driver)
    (ctx : Context) (db : TxBeginner) (exec : TxExecFunc) (os : List OptionCall)
    (fns : List CheckRetryableFunc)
    (hopts : ∀ o ∈ os, o.WellTyped)
    (hfuel : (buildConfig g (os.map OptionCall.toFunc)).maxRetryTimes < fuel) :
    DefaultCheckRetryable Globals.start = none ∧
    DefaultCheckRetryable (fns.foldl (fun s fn => SetDefaultCheckRetryable fn s) g) =
      fns.getLast?.getD (DefaultCheckRetryable g) ∧
    (∃ r, Execute fuel g drv ctx db exec (os.map OptionCall.toFunc) = some r ∧
      r.cfg.checkRetryable = (lastCheckRetryable os).getD (DefaultCheckRetryable g) ∧
      (∀ e b, Event.check e b ∈ r.trace →
        ∃ f, (lastCheckRetryable os).getD (DefaultCheckRetryable g) = some f ∧ b = f e) ∧
      ((lastCheckRetryable os).getD (DefaultCheckRetryable g) = none →
        execCount r.trace ≤ 1 ∧ ∀ e b, Event.check e b ∉ r.trace)) ∧
    (∀ fn g2, lastCheckRetryable os = some fn →
      Execute fuel g2 drv ctx db exec (os.map OptionCall.toFunc) =
        Execute fuel g drv ctx db exec (os.map OptionCall.toFunc)) ∧
    (ExecuteStep fuel g drv ctx db exec (os.map OptionCall.toFunc)).2 = g ∧
    DefaultCheckRetryable
        (ExecuteStep fuel g drv ctx db exec (os.map OptionCall.toFunc)).2 =
      DefaultCheckRetryable g := by
  refine ⟨rfl, foldl_SetDefaultCheckRetryable fns g, ?_, ?_, rfl, rfl⟩
  · obtain ⟨_, hM⟩ := buildConfig_setters g _ (isSetter_map_toFunc hopts)
    have hchk : (buildConfig g (os.map OptionCall.toFunc)).checkRetryable =
        (lastCheckRetryable os).getD (DefaultCheckRetryable g) :=
      (buildConfig_fields g os).2.2.2.1
    rcases Option.eq_none_or_eq_some
      (db.BeginTx ctx (txOptionsOf (buildConfig g (os.map OptionCall.toFunc)))).2
      with hbegin | ⟨e, hbegin⟩
    · obtain ⟨r, hr⟩ := retryLoop_returns drv exec
        (db.BeginTx ctx (txOptionsOf (buildConfig g (os.map OptionCall.toFunc)))).1 fuel
        (buildConfig g (os.map OptionCall.toFunc))
        (beginTrace ctx db (buildConfig g (os.map OptionCall.toFunc))) hM (by omega)
      obtain ⟨h1, h2, h3⟩ := retryLoop_checks drv exec _ fuel _ _ r
        (by simp [beginTrace]) hr
      rw [hchk] at h1 h2 h3
      refine ⟨r, ?_, h1, h2, ?_⟩
      · rw [Execute, executeWith_begun hbegin]; exact hr
      · intro hnone
        refine ⟨?_, ?_⟩
        · rw [h3 hnone]; simp [beginTrace, execCount, execResults]
        · intro e1 b1 hm
          obtain ⟨f, hf, _⟩ := h2 e1 b1 hm
          rw [hnone] at hf; simp at hf
    · rw [Execute, executeWith_beginFailed hbegin]
      refine ⟨_, rfl, hchk, ?_, ?_⟩
      · intro e1 b1 hm; simp [beginTrace] at hm
      · intro _
        exact ⟨by simp [beginTrace, execCount, execResults], by simp [beginTrace]⟩
  · intro fn g2 hlast
    have hcfg : buildConfig g2 (os.map OptionCall.toFunc) =
        buildConfig g (os.map OptionCall.toFunc) := by
      obtain ⟨a1, a2, a3, a4, a5⟩ := buildConfig_fields g os
      obtain ⟨b1, b2, b3, b4, b5⟩ := buildConfig_fields g2 os
      apply options_eq_of_fields
      · rw [a3, b3]
      · rw [a5, b5]
      · rw [a1, b1]
      · rw [a2, b2]
      · rw [a4, b4, hlast]; rfl
    rw [Execute, Execute, hcfg]

/-- Witness of C13: the default of the tests accepts `errRetryable`, and
`CheckRetryable(nil)` disables the retry: one invocation, no classifier
call. -/
theorem c13_default_classifier_and_override_witness :
    (DefaultCheckRetryable Globals.start = none ∧
    DefaultCheckRetryable
        ([some isRetryableErr].foldl (fun s fn => SetDefaultCheckRetryable fn s)
          testGlobals) =
      [some isRetryableErr].getLast?.getD (DefaultCheckRetryable testGlobals) ∧
    (∃ r, Execute 4 testGlobals mockTx 0 mockDB execAlwaysRetryable
        ([OptionCall.checkRetryable none].map OptionCall.toFunc) = some r ∧
      r.cfg.checkRetryable =
        (lastCheckRetryable [OptionCall.checkRetryable none]).getD
          (DefaultCheckRetryable testGlobals) ∧
      (∀ e b, Event.check e b ∈ r.trace →
        ∃ f, (lastCheckRetryable [OptionCall.checkRetryable none]).getD
          (DefaultCheckRetryable testGlobals) = some f ∧ b = f e) ∧
      ((lastCheckRetryable [OptionCall.checkRetryable none]).getD
          (DefaultCheckRetryable testGlobals) = none →
        execCount r.trace ≤ 1 ∧ ∀ e b, Event.check e b ∉ r.trace)) ∧
    (∀ fn g2, lastCheckRetryable [OptionCall.checkRetryable none] = some fn →
      Execute 4 g2 mockTx 0 mockDB execAlwaysRetryable
          ([OptionCall.checkRetryable none].map OptionCall.toFunc) =
        Execute 4 testGlobals mockTx 0 mockDB execAlwaysRetryable
          ([OptionCall.checkRetryable none].map OptionCall.toFunc)) ∧
    (ExecuteStep 4 testGlobals mockTx 0 mockDB execAlwaysRetryable
        ([OptionCall.checkRetryable none].map OptionCall.toFunc)).2 = testGlobals ∧
    DefaultCheckRetryable
        (ExecuteStep 4 testGlobals mockTx 0 mockDB execAlwaysRetryable
          ([OptionCall.checkRetryable none].map OptionCall.toFunc)).2 =
      DefaultCheckRetryable testGlobals) ∧
    (Execute 4 testGlobals mockTx 0 mockDB execAlwaysRetryable
        ([OptionCall.checkRetryable none].map OptionCall.toFunc)).map
        (fun r => (execCount r.trace, checkCount r.trace, r.result)) =
      some (1, 0, .returned (some errRetryable)) ∧
    (Execute 4 testGlobals mockTx 0 mockDB execAlwaysRetryable []).map
        (fun r => (execCount r.trace, checkCount r.trace, r.result)) =
      some (4, 3, .returned (some errRetryable)) :=
  ⟨c13_default_classifier_and_override 4 testGlobals mockTx 0 mockDB execAlwaysRetryable
    [OptionCall.checkRetryable none] [some isRetryableErr]
    (by intro o ho; simp at ho; subst ho; exact trivial) (by decide), by decide, by decide⟩

/-- C14. For every option list, `Execute` calls `BeginTx` once, as its first
call, with the context of the caller and with transaction options whose
`Isolation` is the level of the last `IsolationLevel` option of the list,
`sql.LevelDefault` when there is none, and whose `ReadOnly` is `false`. -/
theorem c14_begin_receives_context_and_isolation (fuel : Nat) (g : Globals) (drv : Driver)
    (ctx : Context) (db : TxBeginner) (exec : TxExecFunc) (os : List OptionCall)
    (hopts : ∀ o ∈ os, o.WellTyped)
    (hfuel : (buildConfig g (os.map OptionCall.toFunc)).maxRetryTimes < fuel) :
    ∃ r rest, Execute fuel g drv ctx db exec (os.map OptionCall.toFunc) = some r ∧
      r.trace =
        .beginTx ctx
          { Isolation := (lastIsolationLevel os).getD sql.LevelDefault, ReadOnly := false }
          (db.BeginTx ctx
            { Isolation := (lastIsolationLevel os).getD sql.LevelDefault,
              ReadOnly := false }).1
          (db.BeginTx ctx
            { Isolation := (lastIsolationLevel os).getD sql.LevelDefault,
              ReadOnly := false }).2 :: rest ∧
      beginCount r.trace = 1 := by
  obtain ⟨_, hM⟩ := buildConfig_setters g _ (isSetter_map_toFunc hopts)
  have hiso : txOptionsOf (buildConfig g (os.map OptionCall.toFunc)) =
      { Isolation := (lastIsolationLevel os).getD sql.LevelDefault, ReadOnly := false } := by
    simp [txOptionsOf, (buildConfig_fields g os).2.2.1]
  rw [← hiso]
  rcases Option.eq_none_or_eq_some
    (db.BeginTx ctx (txOptionsOf (buildConfig g (os.map OptionCall.toFunc)))).2
    with hbegin | ⟨e, hbegin⟩
  · obtain ⟨r, hr⟩ := retryLoop_returns drv exec
      (db.BeginTx ctx (txOptionsOf (buildConfig g (os.map OptionCall.toFunc)))).1 fuel
      (buildConfig g (os.map OptionCall.toFunc))
      (beginTrace ctx db (buildConfig g (os.map OptionCall.toFunc))) hM (by omega)
    obtain ⟨rest, htr, hb, _⟩ := retryLoop_same_tx drv exec _ fuel _ _ r hr
    refine ⟨r, rest, ?_, ?_, ?_⟩
    · rw [Execute, executeWith_begun hbegin]; exact hr
    · rw [htr]; rfl
    · rw [htr]; simp [beginTrace, beginCount, hb]
  · rw [Execute, executeWith_beginFailed hbegin]
    exact ⟨_, [], rfl, rfl, by simp [beginTrace, beginCount]⟩

/-- Witness of C14: the test "Success set Isolation LevelReadCommitted", with
the context 5. -/
theorem c14_begin_receives_context_and_isolation_witness :
    (∃ r rest, Execute 4 testGlobals mockTx 5 mockDB execNil
        ([OptionCall.isolationLevel sql.LevelReadCommitted].map OptionCall.toFunc) =
          some r ∧
      r.trace =
        .beginTx 5
          { Isolation :=
              (lastIsolationLevel [OptionCall.isolationLevel sql.LevelReadCommitted]).getD
                sql.LevelDefault,
            ReadOnly := false }
          (mockDB.BeginTx 5
            { Isolation :=
                (lastIsolationLevel [OptionCall.isolationLevel sql.LevelReadCommitted]).getD
                  sql.LevelDefault,
              ReadOnly := false }).1
          (mockDB.BeginTx 5
            { Isolation :=
                (lastIsolationLevel [OptionCall.isolationLevel sql.LevelReadCommitted]).getD
                  sql.LevelDefault,
              ReadOnly := false }).2 :: rest ∧
      beginCount r.trace = 1) ∧
    (Execute 4 testGlobals mockTx 5 mockDB execNil
        ([OptionCall.isolationLevel sql.LevelReadCommitted].map OptionCall.toFunc)).map
        (fun r => r.trace) =
      some [.beginTx 5 { Isolation := sql.LevelReadCommitted, ReadOnly := false } 7 none,
        .exec 7 (.ret none), .commit 7 none] :=
  ⟨c14_begin_receives_context_and_isolation 4 testGlobals mockTx 5 mockDB execNil
    [OptionCall.isolationLevel sql.LevelReadCommitted]
    (by intro o ho; simp at ho; subst ho; exact trivial) (by decide), by decide⟩

/-- C15. When `BeginTx` succeeds and every invocation of the unit of work
returns, `Execute` makes exactly `k + 1` attempts, where `k` is the least
index, from 0, of an attempt after which the guard for looping again fails:
the attempt has no error, or no classifier is set, or the classifier rejects
its error, or `k = maxRetryTimes`.  `Execute` returns the error of attempt
`k`.  The body goes round again after an attempt exactly when the guard
holds. -/
theorem c15_attempts_until_guard_fails (fuel : Nat) (g : Globals) (drv : Driver)
    (ctx : Context) (db : TxBeginner) (exec : TxExecFunc)
    (opts : List (options → options))
    (hopts : ∀ o ∈ opts, IsSetter o)
    (hbegin : (db.BeginTx ctx (txOptionsOf (buildConfig g opts))).2 = none)
    (hret : ∀ tr tx, ∃ err, exec tr tx = .ret err)
    (hfuel : (buildConfig g opts).maxRetryTimes < fuel) :
    (∃ r earlier last, Execute fuel g drv ctx db exec opts = some r ∧
      attemptErrs r.trace = earlier ++ [last] ∧
      execCount r.trace = earlier.length + 1 ∧
      earlier.length ≤ (buildConfig g opts).maxRetryTimes ∧
      (∀ i err, earlier[i]? = some err → loopsAgain (buildConfig g opts) i err = true) ∧
      loopsAgain (buildConfig g opts) earlier.length last = false ∧
      r.result = .returned last) ∧
    ∀ (t : Tx) (cfg : options) (err : Option Err) (tr : List Event),
      (∃ cfg1 tr1, afterAttempt drv t cfg err tr = .again cfg1 tr1) ↔
        (err ≠ none ∧ cfg.checkRetryable ≠ none ∧
          (∃ e f, err = some e ∧ cfg.checkRetryable = some f ∧ f e = true) ∧
          cfg.retryTimes < cfg.maxRetryTimes) := by
  obtain ⟨h0, hM⟩ := buildConfig_setters g opts hopts
  constructor
  · have key := Execute_run_inv fuel g drv ctx db exec opts
      (fun cfg tr => cfg.maxRetryTimes = (buildConfig g opts).maxRetryTimes ∧
        cfg.checkRetryable = (buildConfig g opts).checkRetryable ∧
        (attemptErrs tr).length = cfg.retryTimes ∧ execCount tr = cfg.retryTimes ∧
        cfg.retryTimes ≤ cfg.maxRetryTimes ∧
        ∀ i err, (attemptErrs tr)[i]? = some err →
          loopsAgain (buildConfig g opts) i err = true)
      (fun r => ∃ earlier last, attemptErrs r.trace = earlier ++ [last] ∧
        execCount r.trace = earlier.length + 1 ∧
        earlier.length ≤ (buildConfig g opts).maxRetryTimes ∧
        (∀ i err, earlier[i]? = some err → loopsAgain (buildConfig g opts) i err = true) ∧
        loopsAgain (buildConfig g opts) earlier.length last = false ∧
        r.result = .returned last)
      hopts hbegin hfuel
      (by simp [beginTrace, attemptErrs, execCount, execResults, h0])
      (by
        intro cfg tr cfg1 tr1 hP h
        obtain ⟨hmax, hchk, hlen, hec, hle, hall⟩ := hP
        obtain ⟨e, f, att, hatt, hf, hfe, hlt, rfl, rfl⟩ := loopBody_again_full h
        have hmod : (cfg.retryTimes + 1) % uintModulus = cfg.retryTimes + 1 :=
          Nat.mod_eq_of_lt (by omega)
        have hatt2 : attemptErrs att = [some e] ∧ (execResults att).length = 1 := by
          rcases hatt with rfl | rfl <;> simp [attemptErrs, execResults]
        unfold execCount at hec ⊢
        simp only [hmod, attemptErrs_sleepIfDelay, execResults_sleepIfDelay,
          attemptErrs_append, execResults_append, attemptErrs, execResults, hatt2.1,
          hatt2.2, List.append_nil, List.length_append, List.length_cons, List.length_nil]
        refine ⟨hmax, hchk, by omega, by omega, by omega, ?_⟩
        intro i err hi
        by_cases hlt2 : i < (attemptErrs tr).length
        · rw [List.getElem?_append_left hlt2] at hi
          exact hall i err hi
        · rw [List.getElem?_append_right (Nat.le_of_not_lt hlt2)] at hi
          have hi0 : i - (attemptErrs tr).length = 0 := by
            by_contra hne
            rw [List.getElem?_eq_none (by simp; omega)] at hi
            simp at hi
          rw [hi0] at hi
          simp only [List.getElem?_cons_zero, Option.some.injEq] at hi
          subst hi
          have hieq : i = cfg.retryTimes := by omega
          simp [loopsAgain, ← hchk, hf, hfe, hieq, ← hmax, hlt])
      (by
        intro cfg tr r hP h
        obtain ⟨hmax, hchk, hlen, hec, hle, hall⟩ := hP
        obtain ⟨hcfg, hform⟩ := loopBody_done_full h
        unfold execCount at hec ⊢
        rcases hform with ⟨p, rb, hres, htr⟩ | ⟨hres, htr⟩ | ⟨e, att, rb, hatt, hres, hform⟩
        · obtain ⟨err, herr⟩ := hret tr (db.BeginTx ctx (txOptionsOf (buildConfig g opts))).1
          rw [loopBody_done_panic h hres] at herr
          simp at herr
        · refine ⟨attemptErrs tr, none, by simp [htr, attemptErrs],
            by simp [htr, execResults]; omega, by omega, hall, by simp [loopsAgain], hres⟩
        · have hatt2 : attemptErrs att = [some e] ∧ (execResults att).length = 1 := by
            rcases hatt with rfl | rfl <;> simp [attemptErrs, execResults]
          rcases hform with ⟨hno, htr⟩ | ⟨f, hf, hlt, hfe, htr⟩
          · refine ⟨attemptErrs tr, some e, by simp [htr, attemptErrs, hatt2.1],
              by simp [htr, execResults, hatt2.2]; omega, by omega, hall, ?_, hres⟩
            rcases hno with hno | hno
            · simp [loopsAgain, ← hchk, hno]
            · have : ¬ (attemptErrs tr).length < (buildConfig g opts).maxRetryTimes := by
                omega
              cases hc : (buildConfig g opts).checkRetryable <;> simp [loopsAgain, hc, this]
          · refine ⟨attemptErrs tr, some e, by simp [htr, attemptErrs, hatt2.1],
              by simp [htr, execResults, hatt2.2]; omega, by omega, hall, ?_, hres⟩
            simp [loopsAgain, ← hchk, hf, hfe])
    obtain ⟨r, hr, earlier, last, hq⟩ := key
    exact ⟨r, earlier, last, hr, hq⟩
  · intro t cfg err tr
    rw [afterAttempt_again_iff]
    cases err with
    | none => simp [loopsAgain]
    | some e =>
      cases hc : cfg.checkRetryable with
      | none => simp [loopsAgain, hc]
      | some f => simp [loopsAgain, hc]

/-- Witness of C15: the test "Success with retry 3 times": the attempts 0, 1
and 2 fail with an accepted error, the attempt 3 has no error. -/
theorem c15_attempts_until_guard_fails_witness :
    ((∃ r earlier last,
        Execute 4 testGlobals mockTx 0 mockDB (execFailFirst 3) [RetryDelay 200] = some r ∧
      attemptErrs r.trace = earlier ++ [last] ∧
      execCount r.trace = earlier.length + 1 ∧
      earlier.length ≤ (buildConfig testGlobals [RetryDelay 200]).maxRetryTimes ∧
      (∀ i err, earlier[i]? = some err →
        loopsAgain (buildConfig testGlobals [RetryDelay 200]) i err = true) ∧
      loopsAgain (buildConfig testGlobals [RetryDelay 200]) earlier.length last = false ∧
      r.result = .returned last) ∧
    ∀ (t : Tx) (cfg : options) (err : Option Err) (tr : List Event),
      (∃ cfg1 tr1, afterAttempt mockTx t cfg err tr = .again cfg1 tr1) ↔
        (err ≠ none ∧ cfg.checkRetryable ≠ none ∧
          (∃ e f, err = some e ∧ cfg.checkRetryable = some f ∧ f e = true) ∧
          cfg.retryTimes < cfg.maxRetryTimes)) ∧
    (Execute 4 testGlobals mockTx 0 mockDB (execFailFirst 3) [RetryDelay 200]).map
        (fun r => (attemptErrs r.trace, r.result)) =
      some ([some errRetryable, some errRetryable, some errRetryable, none],
        .returned none) :=
  ⟨c15_attempts_until_guard_fails 4 testGlobals mockTx 0 mockDB (execFailFirst 3)
    [RetryDelay 200]
    (by intro o ho; simp at ho; subst ho; exact isSetter_RetryDelay 200)
    rfl
    (by intro tr tx; unfold execFailFirst; split <;> exact ⟨_, rfl⟩)
    (by decide), by decide⟩

/-- C16. A call of `Execute` whose `BeginTx` succeeds and which returns ends
in one of two ways.  Committed: the result is `nil`, the last two calls are an
invocation of the unit of work that returned `nil` and a `Commit` that
returned `nil`, and `Rollback` is not called.  Rolled back: the result is an
error, `Rollback` is called exactly once and it is the last call.  So the
result is `nil` exactly when the run ends with a `nil` invocation and a `nil`
`Commit`, and `Rollback` is called exactly when the result is an error. -/
theorem c16_committed_or_rolled_back (fuel : Nat) (g : Globals) (drv : Driver)
    (ctx : Context) (db : TxBeginner) (exec : TxExecFunc)
    (opts : List (options → options))
    (hopts : ∀ o ∈ opts, IsSetter o)
    (hbegin : (db.BeginTx ctx (txOptionsOf (buildConfig g opts))).2 = none)
    (hfuel : (buildConfig g opts).maxRetryTimes < fuel) :
    ∃ r, Execute fuel g drv ctx db exec opts = some r ∧
      ∀ err, r.result = .returned err →
        ((err = none ∧ rollbackCount r.trace = 0 ∧
            ∃ before t, r.trace = before ++ [.exec t (.ret none), .commit t none]) ∨
          (∃ e, err = some e ∧ rollbackCount r.trace = 1 ∧
            ∃ before t rb, r.trace = before ++ [.rollback t rb])) ∧
        (err = none ↔
          ∃ before t, r.trace = before ++ [.exec t (.ret none), .commit t none]) ∧
        (err ≠ none ↔ 0 < rollbackCount r.trace) := by
  apply Execute_run_inv fuel g drv ctx db exec opts
    (fun _ tr => rollbackResults tr = []) _ hopts hbegin hfuel
  · simp [beginTrace, rollbackResults]
  · intro cfg tr cfg1 tr1 hP h
    obtain ⟨e, att, hatt, rfl⟩ := loopBody_again_inv h
    rcases hatt with rfl | rfl <;> simp [rollbackResults, hP]
  · intro cfg tr r hP h err hres
    rcases loopBody_done_inv h with ⟨p, rb, hr, htr⟩ | ⟨hr, htr⟩ |
      ⟨e, att, chk, rb, hatt, hchk, hr, htr⟩
    · rw [hr] at hres; simp at hres
    · rw [hr] at hres
      simp only [Outcome.returned.injEq] at hres
      subst hres
      have hrc : rollbackCount r.trace = 0 := by
        rw [htr]; simp [rollbackCount, rollbackResults, hP]
      exact ⟨Or.inl ⟨rfl, hrc, tr, _, htr⟩, ⟨fun _ => ⟨tr, _, htr⟩, fun _ => rfl⟩,
        ⟨fun hne => absurd rfl hne, fun hpos => by omega⟩⟩
    · rw [hr] at hres
      simp only [Outcome.returned.injEq] at hres
      subst hres
      have hrc : rollbackCount r.trace = 1 := by
        rw [htr]
        rcases hatt with rfl | rfl <;> rcases hchk with rfl | rfl <;>
          simp [rollbackCount, rollbackResults, hP]
      refine ⟨Or.inr ⟨e, rfl, hrc, tr ++ att ++ chk, _, rb, htr⟩, ⟨?_, ?_⟩,
        ⟨fun _ => by omega, fun _ => by simp⟩⟩
      · intro hne; simp at hne
      · rintro ⟨before, t, hb⟩
        have hl := congrArg List.getLast? (htr.symm.trans hb)
        simp at hl

/-- Witness of C16: the test "Failure: error on execution func". -/
theorem c16_committed_or_rolled_back_witness :
    (∃ r, Execute 4 testGlobals mockTx 0 mockDB execAlwaysSQL [] = some r ∧
      ∀ err, r.result = .returned err →
        ((err = none ∧ rollbackCount r.trace = 0 ∧
            ∃ before t, r.trace = before ++ [.exec t (.ret none), .commit t none]) ∨
          (∃ e, err = some e ∧ rollbackCount r.trace = 1 ∧
            ∃ before t rb, r.trace = before ++ [.rollback t rb])) ∧
        (err = none ↔
          ∃ before t, r.trace = before ++ [.exec t (.ret none), .commit t none]) ∧
        (err ≠ none ↔ 0 < rollbackCount r.trace)) ∧
    (Execute 4 testGlobals mockTx 0 mockDB execAlwaysSQL []).map
        (fun r => (r.result, r.trace.getLast?, rollbackCount r.trace)) =
      some (.returned (some errSQL), some (.rollback 7 none), 1) :=
  ⟨c16_committed_or_rolled_back 4 testGlobals mockTx 0 mockDB execAlwaysSQL []
    (by intro o ho; cases ho) rfl (by decide), by decide⟩

/-- C17. For every configuration built from the setters, every classifier and
every unit of work, when `BeginTx` succeeds the loop of `Execute` ends within
`maxRetryTimes + 1` passes, with the same run for any larger bound; the unit
of work is invoked at least once and at most `maxRetryTimes + 1` times, one
more time than the loop went round again; with `maxRetryTimes = 0` it is
invoked exactly once. -/
theorem c17_loop_terminates_within_budget (fuel : Nat) (g : Globals) (drv : Driver)
    (ctx : Context) (db : TxBeginner) (exec : TxExecFunc)
    (opts : List (options → options))
    (hopts : ∀ o ∈ opts, IsSetter o)
    (hbegin : (db.BeginTx ctx (txOptionsOf (buildConfig g opts))).2 = none)
    (hfuel : (buildConfig g opts).maxRetryTimes < fuel) :
    ∃ r, Execute fuel g drv ctx db exec opts = some r ∧
      (∀ fuel2, (buildConfig g opts).maxRetryTimes < fuel2 →
        Execute fuel2 g drv ctx db exec opts = some r) ∧
      1 ≤ execCount r.trace ∧
      execCount r.trace ≤ (buildConfig g opts).maxRetryTimes + 1 ∧
      execCount r.trace = r.cfg.retryTimes + 1 ∧
      r.cfg.retryTimes ≤ (buildConfig g opts).maxRetryTimes ∧
      ((buildConfig g opts).maxRetryTimes = 0 → execCount r.trace = 1) := by
  obtain ⟨h0, hM⟩ := buildConfig_setters g opts hopts
  obtain ⟨r, hr, hQ⟩ := Execute_run_inv fuel g drv ctx db exec opts
    (fun cfg tr => execCount tr = cfg.retryTimes ∧ cfg.retryTimes ≤ cfg.maxRetryTimes ∧
      cfg.maxRetryTimes = (buildConfig g opts).maxRetryTimes)
    (fun r => execCount r.trace = r.cfg.retryTimes + 1 ∧
      r.cfg.retryTimes ≤ (buildConfig g opts).maxRetryTimes)
    hopts hbegin hfuel
    (by simp [beginTrace, execCount, execResults, h0])
    (by
      intro cfg tr cfg1 tr1 hP h
      obtain ⟨hc, hle, hmax⟩ := hP
      obtain ⟨e, f, att, hatt, _, _, hlt, rfl, rfl⟩ := loopBody_again_full h
      have hmod : (cfg.retryTimes + 1) % uintModulus = cfg.retryTimes + 1 :=
        Nat.mod_eq_of_lt (by omega)
      unfold execCount at hc ⊢
      rcases hatt with rfl | rfl <;> simp [execResults, hc, hmod, hmax] <;> omega)
    (by
      intro cfg tr r hP h
      obtain ⟨hc, hle, hmax⟩ := hP
      obtain ⟨hcfg, hform⟩ := loopBody_done_full h
      unfold execCount at hc ⊢
      rw [hcfg]
      refine ⟨?_, by omega⟩
      rcases hform with ⟨p, rb, _, htr⟩ | ⟨_, htr⟩ | ⟨e, att, rb, hatt, _, hform⟩
      · rw [htr]; simp [execResults, hc]
      · rw [htr]; simp [execResults, hc]
      · rcases hform with ⟨_, htr⟩ | ⟨f, _, _, _, htr⟩ <;> rw [htr] <;>
          rcases hatt with rfl | rfl <;> simp [execResults, hc])
  refine ⟨r, hr, ?_, by omega, by omega, hQ.1, hQ.2, by intro hz; omega⟩
  intro fuel2 hfuel2
  rw [Execute, executeWith_begun hbegin] at hr ⊢
  obtain ⟨r2, hr2⟩ := retryLoop_returns drv exec
    (db.BeginTx ctx (txOptionsOf (buildConfig g opts))).1 fuel2 (buildConfig g opts)
    (beginTrace ctx db (buildConfig g opts)) hM (by omega)
  rw [hr2, retryLoop_fuel_irrelevant drv exec _ fuel fuel2 _ _ r r2 hr hr2]

/-- Witness of C17: `MaxRetryTimes(0)` with a classifier that accepts the
error: one invocation. -/
theorem c17_loop_terminates_within_budget_witness :
    (∃ r, Execute 1 testGlobals mockTx 0 mockDB execAlwaysRetryable [MaxRetryTimes 0] =
        some r ∧
      (∀ fuel2, (buildConfig testGlobals [MaxRetryTimes 0]).maxRetryTimes < fuel2 →
        Execute fuel2 testGlobals mockTx 0 mockDB execAlwaysRetryable [MaxRetryTimes 0] =
          some r) ∧
      1 ≤ execCount r.trace ∧
      execCount r.trace ≤ (buildConfig testGlobals [MaxRetryTimes 0]).maxRetryTimes + 1 ∧
      execCount r.trace = r.cfg.retryTimes + 1 ∧
      r.cfg.retryTimes ≤ (buildConfig testGlobals [MaxRetryTimes 0]).maxRetryTimes ∧
      ((buildConfig testGlobals [MaxRetryTimes 0]).maxRetryTimes = 0 →
        execCount r.trace = 1)) ∧
    (Execute 1 testGlobals mockTx 0 mockDB execAlwaysRetryable [MaxRetryTimes 0]).map
        (fun r => (execCount r.trace, r.result)) =
      some (1, .returned (some errRetryable)) :=
  ⟨c17_loop_terminates_within_budget 1 testGlobals mockTx 0 mockDB execAlwaysRetryable
    [MaxRetryTimes 0]
    (by intro o ho; simp at ho; subst ho; exact isSetter_MaxRetryTimes (by decide))
    rfl (by decide), by decide⟩

/-- C18. In every call of `Execute`, `BeginTx` is called exactly once, as the
first call of the run and so before the first invocation of the unit of work,
and not again during retries: every invocation of the unit of work, every
`Commit` and every `Rollback` of the run receives the handle that this
`BeginTx` returned. -/
theorem c18_one_begin_one_handle (fuel : Nat) (g : Globals) (drv : Driver)
    (ctx : Context) (db : TxBeginner) (exec : TxExecFunc)
    (opts : List (options → options))
    (hopts : ∀ o ∈ opts, IsSetter o)
    (hfuel : (buildConfig g opts).maxRetryTimes < fuel) :
    ∃ r rest, Execute fuel g drv ctx db exec opts = some r ∧
      r.trace = .beginTx ctx (txOptionsOf (buildConfig g opts))
          (db.BeginTx ctx (txOptionsOf (buildConfig g opts))).1
          (db.BeginTx ctx (txOptionsOf (buildConfig g opts))).2 :: rest ∧
      beginCount r.trace = 1 ∧ beginCount rest = 0 ∧
      ∀ ev ∈ rest, ∀ t, eventTx ev = some t →
        t = (db.BeginTx ctx (txOptionsOf (buildConfig g opts))).1 := by
  obtain ⟨_, hM⟩ := buildConfig_setters g opts hopts
  rcases Option.eq_none_or_eq_some (db.BeginTx ctx (txOptionsOf (buildConfig g opts))).2
    with hbegin | ⟨e, hbegin⟩
  · obtain ⟨r, hr⟩ := retryLoop_returns drv exec
      (db.BeginTx ctx (txOptionsOf (buildConfig g opts))).1 fuel (buildConfig g opts)
      (beginTrace ctx db (buildConfig g opts)) hM (by omega)
    obtain ⟨rest, htr, hb, htx⟩ := retryLoop_same_tx drv exec _ fuel _ _ r hr
    refine ⟨r, rest, ?_, ?_, ?_, hb, htx⟩
    · rw [Execute, executeWith_begun hbegin]; exact hr
    · rw [htr]; rfl
    · rw [htr]; simp [beginTrace, beginCount, hb]
  · rw [Execute, executeWith_beginFailed hbegin]
    exact ⟨_, [], rfl, rfl, by simp [beginTrace, beginCount], rfl, by simp⟩

/-- Witness of C18: the test "Success with retry 3 times". -/
theorem c18_one_begin_one_handle_witness :
    (∃ r rest, Execute 4 testGlobals mockTx 0 mockDB (execFailFirst 3) [RetryDelay 200] =
        some r ∧
      r.trace = .beginTx 0 (txOptionsOf (buildConfig testGlobals [RetryDelay 200]))
          (mockDB.BeginTx 0 (txOptionsOf (buildConfig testGlobals [RetryDelay 200]))).1
          (mockDB.BeginTx 0 (txOptionsOf (buildConfig testGlobals [RetryDelay 200]))).2 ::
            rest ∧
      beginCount r.trace = 1 ∧ beginCount rest = 0 ∧
      ∀ ev ∈ rest, ∀ t, eventTx ev = some t →
        t = (mockDB.BeginTx 0 (txOptionsOf (buildConfig testGlobals [RetryDelay 200]))).1) ∧
    (Execute 4 testGlobals mockTx 0 mockDB (execFailFirst 3) [RetryDelay 200]).map
        (fun r => (beginCount r.trace, r.trace.filterMap eventTx)) =
      some (1, [7, 7, 7, 7, 7]) :=
  ⟨c18_one_begin_one_handle 4 testGlobals mockTx 0 mockDB (execFailFirst 3) [RetryDelay 200]
    (by intro o ho; simp at ho; subst ho; exact isSetter_RetryDelay 200) (by decide),
    by decide⟩

/-- C19. In every call of `Execute` whose `BeginTx` succeeds: with
`retryDelay > 0` there is one sleep for each retry and each lasts
`retryDelay`; with `retryDelay ≤ 0` there is none; the number of retries is
the number of invocations of the unit of work minus one.  Every sleep directly
follows the classifier call that accepted the error of a failed attempt and
directly precedes the next invocation of the unit of work: none before the
first attempt, none after the last. -/
theorem c19_sleep_between_attempts (fuel : Nat) (g : Globals) (drv : Driver)
    (ctx : Context) (db : TxBeginner) (exec : TxExecFunc)
    (opts : List (options → options))
    (hopts : ∀ o ∈ opts, IsSetter o)
    (hbegin : (db.BeginTx ctx (txOptionsOf (buildConfig g opts))).2 = none)
    (hfuel : (buildConfig g opts).maxRetryTimes < fuel) :
    ∃ r, Execute fuel g drv ctx db exec opts = some r ∧
      r.cfg.retryTimes + 1 = execCount r.trace ∧
      (0 < (buildConfig g opts).retryDelay →
        sleepDurations r.trace =
          List.replicate r.cfg.retryTimes (buildConfig g opts).retryDelay) ∧
      ((buildConfig g opts).retryDelay ≤ 0 → sleepDurations r.trace = []) ∧
      ∀ before d after, r.trace = before ++ .sleep d :: after →
        d = (buildConfig g opts).retryDelay ∧
        (∃ b2 e, before = b2 ++ [.check e true]) ∧
        ∃ t out a2, after = .exec t out :: a2 := by
  obtain ⟨h0, hM⟩ := buildConfig_setters g opts hopts
  apply Execute_run_inv fuel g drv ctx db exec opts
    (fun cfg tr => cfg.retryDelay = (buildConfig g opts).retryDelay ∧
      cfg.maxRetryTimes = (buildConfig g opts).maxRetryTimes ∧
      cfg.retryTimes = execCount tr ∧
      (0 < (buildConfig g opts).retryDelay →
        sleepDurations tr = List.replicate cfg.retryTimes (buildConfig g opts).retryDelay) ∧
      ((buildConfig g opts).retryDelay ≤ 0 → sleepDurations tr = []) ∧
      ∀ before d after, tr = before ++ .sleep d :: after →
        d = (buildConfig g opts).retryDelay ∧
        (∃ b2 e, before = b2 ++ [.check e true]) ∧
        (after = [] ∨ ∃ t out a2, after = .exec t out :: a2)) _ hopts hbegin hfuel
  · refine ⟨rfl, rfl, by simp [h0, beginTrace, execCount, execResults],
      by intro _; simp [h0, beginTrace, sleepDurations],
      by intro _; simp [beginTrace, sleepDurations], ?_⟩
    intro before d after heq
    have hs := congrArg sleepDurations heq
    simp [beginTrace, sleepDurations] at hs
  · intro cfg tr cfg1 tr1 hP h
    obtain ⟨hd, hmax, hc, hpos1, hpos0, hplaced⟩ := hP
    obtain ⟨e, f, att, hatt, _, _, hlt, rfl, rfl⟩ := loopBody_again_full h
    have hmod : (cfg.retryTimes + 1) % uintModulus = cfg.retryTimes + 1 :=
      Nat.mod_eq_of_lt (by omega)
    have hatt2 : sleepDurations att = [] ∧ (execResults att).length = 1 ∧
        ∃ t out m2, att ++ [.check e true] = .exec t out :: m2 := by
      rcases hatt with rfl | rfl
      · exact ⟨rfl, rfl, _, _, _, rfl⟩
      · exact ⟨rfl, rfl, _, _, _, rfl⟩
    have hstrict := sleeps_placed_append (buildConfig g opts).retryDelay tr
      (att ++ [.check e true]) hplaced (by simp [hatt2.1, sleepDurations]) hatt2.2.2
    simp only [hmod]
    refine ⟨hd, hmax, ?_, ?_, ?_, ?_⟩
    · unfold execCount at hc ⊢
      simp [execResults, hatt2.2.1, hc]
    · intro hpos
      have hcd : cfg.retryDelay > 0 := by rw [hd]; exact hpos
      rw [sleepIfDelay, if_pos hcd]
      simp [sleepDurations, hatt2.1, hpos1 hpos, hd, List.replicate_succ']
    · intro hle
      have hcd : ¬ cfg.retryDelay > 0 := by rw [hd]; exact not_lt.mpr hle
      rw [sleepIfDelay, if_neg hcd]
      simp [sleepDurations, hatt2.1, hpos0 hle]
    · unfold sleepIfDelay
      split
      · intro before d after heq
        rw [hd] at heq
        have hstrict2 : ∀ before d after,
            (tr ++ att) ++ [.check e true] = before ++ .sleep d :: after →
            d = (buildConfig g opts).retryDelay ∧
              (∃ b2 e1, before = b2 ++ [.check e1 true]) ∧
              ∃ t out a2, after = .exec t out :: a2 := by
          intro b1 d1 a1 h1
          exact hstrict b1 d1 a1 (by simpa using h1)
        exact sleeps_placed_sleep (buildConfig g opts).retryDelay (tr ++ att) e hstrict2
          before d after heq
      · intro before d after heq
        obtain ⟨h1, h2, h3⟩ := hstrict before d after (by simpa using heq)
        exact ⟨h1, h2, Or.inr h3⟩
  · intro cfg tr r hP h
    obtain ⟨hd, hmax, hc, hpos1, hpos0, hplaced⟩ := hP
    obtain ⟨hcfg, hform⟩ := loopBody_done_full h
    have key : ∃ more, r.trace = tr ++ more ∧ sleepDurations more = [] ∧
        (execResults more).length = 1 ∧ ∃ t out m2, more = .exec t out :: m2 := by
      rcases hform with ⟨p, rb, _, htr⟩ | ⟨_, htr⟩ | ⟨e, att, rb, hatt, _, hform⟩
      · exact ⟨_, htr, rfl, rfl, _, _, _, rfl⟩
      · exact ⟨_, htr, rfl, rfl, _, _, _, rfl⟩
      · rcases hform with ⟨_, htr⟩ | ⟨f, _, _, _, htr⟩ <;> rcases hatt with rfl | rfl <;>
          rw [List.append_assoc] at htr <;> exact ⟨_, htr, rfl, rfl, _, _, _, rfl⟩
    obtain ⟨more, htr, hquiet, hone, hhead⟩ := key
    rw [hcfg, htr]
    refine ⟨?_, ?_, ?_, sleeps_placed_append _ tr more hplaced hquiet hhead⟩
    · unfold execCount at hc ⊢
      simp [hone, hc]
    · intro hpos; simp [hquiet, hpos1 hpos]
    · intro hle; simp [hquiet, hpos0 hle]

/-- Witness of C19: the test "Success with retry 3 times", with
`RetryDelay(200)`: three sleeps of 200, each between a classifier call and the
next invocation. -/
theorem c19_sleep_between_attempts_witness :
    (∃ r, Execute 4 testGlobals mockTx 0 mockDB (execFailFirst 3) [RetryDelay 200] = some r ∧
      r.cfg.retryTimes + 1 = execCount r.trace ∧
      (0 < (buildConfig testGlobals [RetryDelay 200]).retryDelay →
        sleepDurations r.trace =
          List.replicate r.cfg.retryTimes
            (buildConfig testGlobals [RetryDelay 200]).retryDelay) ∧
      ((buildConfig testGlobals [RetryDelay 200]).retryDelay ≤ 0 →
        sleepDurations r.trace = []) ∧
      ∀ before d after, r.trace = before ++ .sleep d :: after →
        d = (buildConfig testGlobals [RetryDelay 200]).retryDelay ∧
        (∃ b2 e, before = b2 ++ [.check e true]) ∧
        ∃ t out a2, after = .exec t out :: a2) ∧
    (Execute 4 testGlobals mockTx 0 mockDB (execFailFirst 3) [RetryDelay 200]).map
        (fun r => (r.trace, sleepDurations r.trace)) =
      some ([.beginTx 0 { Isolation := 0, ReadOnly := false } 7 none,
          .exec 7 (.ret (some errRetryable)), .check errRetryable true, .sleep 200,
          .exec 7 (.ret (some errRetryable)), .check errRetryable true, .sleep 200,
          .exec 7 (.ret (some errRetryable)), .check errRetryable true, .sleep 200,
          .exec 7 (.ret none), .commit 7 none], [200, 200, 200]) :=
  ⟨c19_sleep_between_attempts 4 testGlobals mockTx 0 mockDB (execFailFirst 3)
    [RetryDelay 200]
    (by intro o ho; simp at ho; subst ho; exact isSetter_RetryDelay 200)
    rfl (by decide), by decide⟩

/-- C20. In every call of `Execute` whose `BeginTx` succeeds, the classifier
is called at most once per attempt and with the error of that attempt: call
number `j` receives the non-`nil` error of attempt number `j`.  There is a
call for every attempt before the last one and at most one for the last one,
none when the last attempt has no error, and none once the retry counter has
reached `maxRetryTimes`: at most `maxRetryTimes` calls, and exactly
`maxRetryTimes` when there are `maxRetryTimes + 1` attempts. -/
theorem c20_classifier_calls (fuel : Nat) (g : Globals) (drv : Driver)
    (ctx : Context) (db : TxBeginner) (exec : TxExecFunc)
    (opts : List (options → options))
    (hopts : ∀ o ∈ opts, IsSetter o)
    (hbegin : (db.BeginTx ctx (txOptionsOf (buildConfig g opts))).2 = none)
    (hfuel : (buildConfig g opts).maxRetryTimes < fuel) :
    ∃ r, Execute fuel g drv ctx db exec opts = some r ∧
      (checkArgs r.trace).map some = (attemptErrs r.trace).take (checkCount r.trace) ∧
      checkCount r.trace ≤ (buildConfig g opts).maxRetryTimes ∧
      checkCount r.trace ≤ execCount r.trace ∧
      execCount r.trace ≤ checkCount r.trace + 1 ∧
      (r.result = .returned none → checkCount r.trace + 1 = execCount r.trace) ∧
      (execCount r.trace = (buildConfig g opts).maxRetryTimes + 1 →
        checkCount r.trace = (buildConfig g opts).maxRetryTimes) := by
  obtain ⟨h0, hM⟩ := buildConfig_setters g opts hopts
  apply Execute_run_inv fuel g drv ctx db exec opts
    (fun cfg tr => (checkArgs tr).map some = attemptErrs tr ∧
      checkCount tr = cfg.retryTimes ∧ execCount tr = cfg.retryTimes ∧
      cfg.retryTimes ≤ cfg.maxRetryTimes ∧
      cfg.maxRetryTimes = (buildConfig g opts).maxRetryTimes) _ hopts hbegin hfuel
  · simp [beginTrace, checkArgs, attemptErrs, checkCount, execCount, execResults, h0]
  · intro cfg tr cfg1 tr1 hP h
    obtain ⟨hargs, hcc, hec, hle, hmax⟩ := hP
    obtain ⟨e, f, att, hatt, _, _, hlt, rfl, rfl⟩ := loopBody_again_full h
    have hmod : (cfg.retryTimes + 1) % uintModulus = cfg.retryTimes + 1 :=
      Nat.mod_eq_of_lt (by omega)
    unfold checkCount at hcc ⊢
    unfold execCount at hec ⊢
    simp only [hmod]
    rcases hatt with rfl | rfl <;>
      simp [checkArgs, attemptErrs, execResults, hargs, hcc, hec, hmax] <;> omega
  · intro cfg tr r hP h
    obtain ⟨hargs, hcc, hec, hle, hmax⟩ := hP
    have hlen : (attemptErrs tr).length = (checkArgs tr).length := by
      rw [← hargs]; simp
    obtain ⟨hcfg, hform⟩ := loopBody_done_full h
    unfold checkCount at hcc ⊢
    unfold execCount at hec ⊢
    rcases hform with ⟨p, rb, hres, htr⟩ | ⟨hres, htr⟩ | ⟨e, att, rb, hatt, hres, hform⟩
    · rw [htr, hres]
      simp only [checkArgs_append, attemptErrs_append, execResults_append, checkArgs,
        attemptErrs, execResults, List.append_nil, List.length_append, List.length_cons,
        List.length_nil]
      refine ⟨?_, by omega, by omega, by omega, by intro hh; simp at hh, by omega⟩
      rw [← hlen, List.take_length]; exact hargs
    · rw [htr, hres]
      simp only [checkArgs_append, attemptErrs_append, execResults_append, checkArgs,
        attemptErrs, execResults, List.append_nil, List.length_append, List.length_cons,
        List.length_nil]
      refine ⟨?_, by omega, by omega, by omega, by intro _; omega, by omega⟩
      rw [List.take_left' hlen]; exact hargs
    · rcases hform with ⟨hno, htr⟩ | ⟨f, hf, hlt, hfe, htr⟩
      · rw [htr, hres]
        have hatt2 : attemptErrs att = [some e] ∧ checkArgs att = [] ∧
            (execResults att).length = 1 := by
          rcases hatt with rfl | rfl <;> simp [attemptErrs, checkArgs, execResults]
        simp only [checkArgs_append, attemptErrs_append, execResults_append, checkArgs,
          attemptErrs, execResults, List.append_nil, List.length_append, List.length_cons,
          List.length_nil, hatt2.1, hatt2.2.1, hatt2.2.2]
        refine ⟨?_, by omega, by omega, by omega, by intro hh; simp at hh, by omega⟩
        rw [List.take_left' hlen]; exact hargs
      · rw [htr, hres]
        have hatt2 : attemptErrs att = [some e] ∧ checkArgs att = [] ∧
            (execResults att).length = 1 := by
          rcases hatt with rfl | rfl <;> simp [attemptErrs, checkArgs, execResults]
        simp only [checkArgs_append, attemptErrs_append, execResults_append, checkArgs,
          attemptErrs, execResults, List.append_nil, List.length_append, List.length_cons,
          List.length_nil, hatt2.1, hatt2.2.1, hatt2.2.2]
        refine ⟨?_, by omega, by omega, by omega, by intro hh; simp at hh, by omega⟩
        rw [List.take_of_length_le (by simp [hlen])]
        simp [hargs]

/-- Witness of C20: three attempts that all fail with an accepted error under
`MaxRetryTimes(2)`: two calls of the classifier, not three. -/
theorem c20_classifier_calls_witness :
    (∃ r, Execute 3 testGlobals mockTx 0 mockDB execAlwaysRetryable [MaxRetryTimes 2] =
        some r ∧
      (checkArgs r.trace).map some = (attemptErrs r.trace).take (checkCount r.trace) ∧
      checkCount r.trace ≤ (buildConfig testGlobals [MaxRetryTimes 2]).maxRetryTimes ∧
      checkCount r.trace ≤ execCount r.trace ∧
      execCount r.trace ≤ checkCount r.trace + 1 ∧
      (r.result = .returned none → checkCount r.trace + 1 = execCount r.trace) ∧
      (execCount r.trace = (buildConfig testGlobals [MaxRetryTimes 2]).maxRetryTimes + 1 →
        checkCount r.trace = (buildConfig testGlobals [MaxRetryTimes 2]).maxRetryTimes)) ∧
    (Execute 3 testGlobals mockTx 0 mockDB execAlwaysRetryable [MaxRetryTimes 2]).map
        (fun r => (execCount r.trace, checkArgs r.trace, attemptErrs r.trace)) =
      some (3, [errRetryable, errRetryable],
        [some errRetryable, some errRetryable, some errRetryable]) :=
  ⟨c20_classifier_calls 3 testGlobals mockTx 0 mockDB execAlwaysRetryable [MaxRetryTimes 2]
    (by intro o ho; simp at ho; subst ho; exact isSetter_MaxRetryTimes (by decide))
    rfl (by decide), by decide⟩

end TxHelper
